import Mathlib

/-!
Shallow embedding of the code-with-us opportunity database access layer
(`back-end/lib/db/opportunity/code-with-us`): the relational tables are lists
of row records, the knex queries become pure list computations, `tryDb`
becomes `Except String`, and every write returns the successor database
state explicitly.  Timestamps (`Date`) are `Nat`, ids (uuids) are `Nat`;
fresh uuids are passed explicitly by the caller.
-/

/-- User roles, from the shared user resource module. -/
inductive UserType
  | Admin
  | Government
  | Vendor
deriving DecidableEq, Repr

/-- The requesting user of an authenticated session. -/
structure User where
  id : Nat
  type : UserType
deriving DecidableEq, Repr

/-- A `Session` carries an optional user (`session.user`); `none` is an
anonymous session. -/
abbrev Session := Option User

/-- Opportunity statuses, from the shared code-with-us resource module. -/
inductive CWUOpportunityStatus
  | Draft
  | Published
  | Evaluation
  | Awarded
  | Suspended
  | Canceled
deriving DecidableEq, Repr

/-- Opportunity lifecycle events recorded in the history table. -/
inductive CWUOpportunityEvent
  | Edited
  | AddendumAdded
deriving DecidableEq, Repr

/-- Proposal statuses, from the shared code-with-us proposal resource module. -/
inductive CWUProposalStatus
  | Draft
  | Submitted
  | UnderReview
  | Evaluated
  | Awarded
  | NotAwarded
  | Disqualified
  | Withdrawn
deriving DecidableEq, Repr

/-- Modelled from the spec: `publicOpportunityStatuses` lives in the shared
resource module, which is not part of the sources; per the spec's visibility
rules these are the statuses every requester may see. -/
def publicOpportunityStatuses : List CWUOpportunityStatus :=
  [CWUOpportunityStatus.Published, CWUOpportunityStatus.Evaluation, CWUOpportunityStatus.Awarded]

/-- Modelled from the spec: `privateOpportunitiesStatuses` lives in the shared
resource module, which is not part of the sources; these are the statuses
reserved to owners and admins. -/
def privateOpportunitiesStatuses : List CWUOpportunityStatus :=
  [CWUOpportunityStatus.Draft, CWUOpportunityStatus.Suspended, CWUOpportunityStatus.Canceled]

/-- Slim user record, as resolved by `readOneUserSlim` from the user module. -/
structure UserSlim where
  id : Nat
  name : String
deriving DecidableEq, Repr

/-- A stored file record, as resolved by `readOneFileById` from the file module. -/
structure FileRecord where
  id : Nat
  name : String
deriving DecidableEq, Repr

/-- Row of the `cwuOpportunities` table (the immutable root record). -/
structure RootOpportunityRecord where
  id : Nat
  createdAt : Nat
  createdBy : Nat
deriving DecidableEq, Repr

/-- Row of the `cwuOpportunityVersions` table: one row per edit, carrying all
editable content. -/
structure OpportunityVersionRecord where
  id : Nat
  opportunity : Nat
  createdAt : Nat
  createdBy : Nat
  title : String
  teaser : String
  remoteOk : Bool
  remoteDesc : String
  location : String
  reward : Nat
  skills : List String
  description : String
  proposalDeadline : Nat
  assignmentDate : Nat
  startDate : Nat
  completionDate : Nat
  submissionInfo : String
  acceptanceCriteria : String
  evaluationCriteria : String
deriving DecidableEq, Repr

/-- Row of the `cwuOpportunityStatuses` table: either a status change
(`status` non-null) or a lifecycle event (`event` non-null). -/
structure CWUOpportunityStatusRecord where
  id : Nat
  opportunity : Nat
  createdAt : Nat
  createdBy : Option Nat
  status : Option CWUOpportunityStatus
  event : Option CWUOpportunityEvent
  note : String
deriving DecidableEq, Repr

/-- Row of the `cwuOpportunityAttachments` table linking a version to a file. -/
structure CWUOpportunityAttachmentRecord where
  opportunityVersion : Nat
  file : Nat
deriving DecidableEq, Repr

/-- Row of the `cwuOpportunityAddenda` table. -/
structure CWUOpportunityAddendumRecord where
  id : Nat
  opportunity : Nat
  description : String
  createdBy : Option Nat
  createdAt : Nat
deriving DecidableEq, Repr

/-- Row of the `cwuOpportunitySubscribers` table. -/
structure CWUOpportunitySubscriberRecord where
  opportunity : Nat
  user : Nat
deriving DecidableEq, Repr

/-- Row of the `cwuProposals` table (only the columns the opportunity layer
touches). -/
structure CWUProposalRecord where
  id : Nat
  opportunity : Nat
deriving DecidableEq, Repr

/-- Row of the `cwuProposalStatuses` table. -/
structure CWUProposalStatusRecord where
  id : Nat
  proposal : Nat
  createdAt : Nat
  createdBy : Option Nat
  status : Option CWUProposalStatus
  note : String
deriving DecidableEq, Repr

/-- The database state: one list of rows per table, plus the user and file
tables the resolution helpers read. -/
structure Db where
  cwuOpportunities : List RootOpportunityRecord
  cwuOpportunityVersions : List OpportunityVersionRecord
  cwuOpportunityStatuses : List CWUOpportunityStatusRecord
  cwuOpportunityAttachments : List CWUOpportunityAttachmentRecord
  cwuOpportunityAddenda : List CWUOpportunityAddendumRecord
  cwuOpportunitySubscribers : List CWUOpportunitySubscriberRecord
  cwuProposals : List CWUProposalRecord
  cwuProposalStatuses : List CWUProposalStatusRecord
  files : List FileRecord
  users : List UserSlim
  viewCounters : List (String × Nat)
deriving DecidableEq, Repr

/-- `select max(...)` over a list of naturals (`none` on the empty set,
like SQL's NULL). -/
def listMaxNat : List Nat → Option Nat
  | [] => none
  | a :: l =>
    match listMaxNat l with
    | none => some a
    | some b => some (max a b)

/-- Insert into a list sorted by `le` (used to model SQL `orderBy`). -/
def insertSorted (le : α → α → Bool) (a : α) : List α → List α
  | [] => [a]
  | b :: l => if le a b then a :: b :: l else b :: insertSorted le a l

/-- Insertion sort, modelling SQL `orderBy`. -/
def sortBy (le : α → α → Bool) : List α → List α
  | [] => []
  | a :: l => insertSorted le a (sortBy le l)

/-- Sequential fallible map, modelling `Promise.all` over operations whose
failures are thrown and caught by the wrapping `tryDb`. -/
def mapMExcept (f : α → Except String β) : List α → Except String (List β)
  | [] => .ok []
  | a :: l =>
    match f a with
    | .error e => .error e
    | .ok b =>
      match mapMExcept f l with
      | .error e => .error e
      | .ok bs => .ok (b :: bs)

/-- Modelled from the spec: `readOneUserSlim` (user db module, not in the
sources) resolves a user id to its slim record, if present. -/
def readOneUserSlim (db : Db) (userId : Nat) : Option UserSlim :=
  db.users.find? (fun u => u.id == userId)

/-- Modelled from the spec: `readOneFileById` (file db module, not in the
sources) resolves a file id to its record, if present. -/
def readOneFileById (db : Db) (fileId : Nat) : Option FileRecord :=
  db.files.find? (fun f => f.id == fileId)

/-- Modelled from the spec: the view counter name for an opportunity, from the
shared counter resource helper (not in the sources). -/
def getCWUOpportunityViewsCounterName (oppId : Nat) : String :=
  "opportunity.code-with-us." ++ Nat.repr oppId ++ ".views"

/-- Modelled from the spec: `readSubmittedCWUProposalCount` (proposal db
module, not in the sources) counts this opportunity's proposals other than
draft/withdrawn ones, per the comment at its call site. -/
def readSubmittedCWUProposalCount (db : Db) (oppId : Nat) : Nat :=
  ((db.cwuProposals.filter (fun p => p.opportunity == oppId)).filter (fun p =>
    match (sortBy (fun a b => decide (b.createdAt ≤ a.createdAt))
        (db.cwuProposalStatuses.filter (fun st => st.proposal == p.id && st.status.isSome))).head? with
    | some st => !(st.status == some CWUProposalStatus.Draft || st.status == some CWUProposalStatus.Withdrawn)
    | none => false)).length

/-- A resolved addendum. -/
structure Addendum where
  id : Nat
  description : String
  createdBy : Option UserSlim
  createdAt : Nat
deriving DecidableEq, Repr

/-- The `type` field of a resolved history record: `adt('status', s)` or
`adt('event', e)`. -/
inductive CWUHistoryType
  | status (s : CWUOpportunityStatus)
  | event (e : CWUOpportunityEvent)
deriving DecidableEq, Repr

/-- A resolved opportunity history record. -/
structure CWUOpportunityHistoryRecord where
  id : Nat
  createdAt : Nat
  createdBy : Option UserSlim
  note : String
  type : CWUHistoryType
deriving DecidableEq, Repr

/-- Owner/admin reporting metrics. -/
structure CWUOpportunityReporting where
  numViews : Nat
  numWatchers : Nat
  numProposals : Nat
deriving DecidableEq, Repr

/-- The raw joined row produced by `readOneCWUOpportunity`'s select, with the
fields the subsequent enrichment steps tack on (TypeScript mutates the same
object; absent fields are `none`/`[]`). -/
structure RawCWUOpportunity where
  id : Nat
  createdAt : Nat
  createdBy : Option Nat
  versionId : Nat
  updatedAt : Nat
  updatedBy : Option Nat
  title : String
  teaser : String
  remoteOk : Bool
  remoteDesc : String
  location : String
  reward : Nat
  skills : List String
  description : String
  proposalDeadline : Nat
  assignmentDate : Nat
  startDate : Nat
  completionDate : Nat
  submissionInfo : String
  acceptanceCriteria : String
  evaluationCriteria : String
  status : Option CWUOpportunityStatus
  attachments : List Nat := []
  addenda : List Nat := []
  publishedAt : Option Nat := none
  successfulProponent : Option Bool := none
  subscribed : Option Bool := none
  history : Option (List CWUOpportunityHistoryRecord) := none
  reporting : Option CWUOpportunityReporting := none
deriving DecidableEq, Repr

/-- The raw joined row produced by `readManyCWUOpportunities`' select. -/
structure RawCWUOpportunitySlim where
  id : Nat
  title : String
  createdBy : Option Nat
  createdAt : Nat
  updatedAt : Nat
  updatedBy : Option Nat
  proposalDeadline : Nat
  status : Option CWUOpportunityStatus
deriving DecidableEq, Repr

/-- The fully resolved opportunity returned by `readOneCWUOpportunity`. -/
structure CWUOpportunity where
  id : Nat
  createdAt : Nat
  createdBy : Option UserSlim
  updatedAt : Nat
  updatedBy : Option UserSlim
  title : String
  teaser : String
  remoteOk : Bool
  remoteDesc : String
  location : String
  reward : Nat
  skills : List String
  description : String
  proposalDeadline : Nat
  assignmentDate : Nat
  startDate : Nat
  completionDate : Nat
  submissionInfo : String
  acceptanceCriteria : String
  evaluationCriteria : String
  status : Option CWUOpportunityStatus
  attachments : List FileRecord
  addenda : List Addendum
  publishedAt : Option Nat
  successfulProponent : Option Bool
  subscribed : Option Bool
  history : Option (List CWUOpportunityHistoryRecord)
  reporting : Option CWUOpportunityReporting
deriving DecidableEq, Repr

/-- The slim opportunity returned by the listing endpoints. -/
structure CWUOpportunitySlim where
  id : Nat
  createdAt : Nat
  createdBy : Option UserSlim
  updatedAt : Nat
  updatedBy : Option UserSlim
  title : String
  proposalDeadline : Nat
  status : Option CWUOpportunityStatus
deriving DecidableEq, Repr

/-- Correlated subquery `max("createdAt") ... where opportunity = oppId and
status is not null` over `cwuOpportunityStatuses`. -/
def maxTypedStatusCreatedAt (db : Db) (oppId : Nat) : Option Nat :=
  listMaxNat ((db.cwuOpportunityStatuses.filter
    (fun s2 => s2.opportunity == oppId && s2.status.isSome)).map (fun s => s.createdAt))

/-- Correlated subquery `max("createdAt") ... where opportunity = oppId` over
`cwuOpportunityStatuses` (no `status is not null`, as in
`readManyCWUOpportunities`). -/
def maxAnyStatusCreatedAt (db : Db) (oppId : Nat) : Option Nat :=
  listMaxNat ((db.cwuOpportunityStatuses.filter
    (fun s2 => s2.opportunity == oppId)).map (fun s => s.createdAt))

/-- Correlated subquery `max("createdAt") ... where opportunity = oppId` over
`cwuOpportunityVersions`. -/
def maxVersionCreatedAt (db : Db) (oppId : Nat) : Option Nat :=
  listMaxNat ((db.cwuOpportunityVersions.filter
    (fun v2 => v2.opportunity == oppId)).map (fun v => v.createdAt))

/-- Correlated subquery `max("createdAt") ... where proposal = pid and status
is not null` over `cwuProposalStatuses`. -/
def maxTypedProposalStatusCreatedAt (db : Db) (pid : Nat) : Option Nat :=
  listMaxNat ((db.cwuProposalStatuses.filter
    (fun s2 => s2.proposal == pid && s2.status.isSome)).map (fun s => s.createdAt))

/-- SQL `whereIn` on a possibly-NULL status column: NULL matches nothing. -/
def statusIn (st : Option CWUOpportunityStatus) (l : List CWUOpportunityStatus) : Bool :=
  match st with
  | some s => l.contains s
  | none => false

/-- The select list of `readOneCWUOpportunity`, assembling a raw row from one
root row, one status row and one version row. -/
def mkRawCWUOpportunity (opp : RootOpportunityRecord) (stat : CWUOpportunityStatusRecord)
    (version : OpportunityVersionRecord) : RawCWUOpportunity :=
  { id := opp.id
    createdAt := opp.createdAt
    createdBy := some opp.createdBy
    versionId := version.id
    updatedAt := version.createdAt
    updatedBy := some version.createdBy
    title := version.title
    teaser := version.teaser
    remoteOk := version.remoteOk
    remoteDesc := version.remoteDesc
    location := version.location
    reward := version.reward
    skills := version.skills
    description := version.description
    proposalDeadline := version.proposalDeadline
    assignmentDate := version.assignmentDate
    startDate := version.startDate
    completionDate := version.completionDate
    submissionInfo := version.submissionInfo
    acceptanceCriteria := version.acceptanceCriteria
    evaluationCriteria := version.evaluationCriteria
    status := stat.status }

/-- The join of `readOneCWUOpportunity`: root rows with the given id, joined
on the latest status-typed status row's timestamp and the latest version's
timestamp (both via correlated max subqueries). -/
def readOneCWUOpportunityJoinRows (db : Db) (oppId : Nat) : List RawCWUOpportunity :=
  (db.cwuOpportunities.filter (fun opp => opp.id == oppId)).flatMap (fun opp =>
    (db.cwuOpportunityStatuses.filter (fun stat =>
        stat.opportunity == opp.id &&
        some stat.createdAt == maxTypedStatusCreatedAt db opp.id)).flatMap (fun stat =>
      (db.cwuOpportunityVersions.filter (fun version =>
          version.opportunity == opp.id &&
          some version.createdAt == maxVersionCreatedAt db opp.id)).map (fun version =>
        mkRawCWUOpportunity opp stat version)))

/-- The role-based visibility `where` clauses of `readOneCWUOpportunity`:
anonymous/vendor see public statuses only, government sees public plus own
private, admin sees public plus private. -/
def visibleForSession (session : Session) (raw : RawCWUOpportunity) : Bool :=
  match session with
  | none => statusIn raw.status publicOpportunityStatuses
  | some u =>
    match u.type with
    | UserType.Vendor => statusIn raw.status publicOpportunityStatuses
    | UserType.Government =>
      statusIn raw.status publicOpportunityStatuses ||
        (statusIn raw.status privateOpportunitiesStatuses && raw.createdBy == some u.id)
    | UserType.Admin =>
      statusIn raw.status (publicOpportunityStatuses ++ privateOpportunitiesStatuses)

/-- `query.first()` of `readOneCWUOpportunity`: the first joined row passing
the visibility clauses. -/
def readOneCWUOpportunityRawResult (db : Db) (oppId : Nat) (session : Session) :
    Option RawCWUOpportunity :=
  ((readOneCWUOpportunityJoinRows db oppId).filter (visibleForSession session)).head?

/-- `processForRole`: remove `createdBy`/`updatedBy` for a requester that is
neither admin nor one of those users. -/
def processForRole (result : RawCWUOpportunity) (session : Session) : RawCWUOpportunity :=
  match session with
  | none => { result with createdBy := none, updatedBy := none }
  | some u =>
    if u.type ≠ UserType.Admin ∧ result.createdBy ≠ some u.id ∧ result.updatedBy ≠ some u.id then
      { result with createdBy := none, updatedBy := none }
    else
      result

/-- `processForRole` at the slim row type (the TypeScript function is generic
over both raw shapes). -/
def processForRoleSlim (result : RawCWUOpportunitySlim) (session : Session) : RawCWUOpportunitySlim :=
  match session with
  | none => { result with createdBy := none, updatedBy := none }
  | some u =>
    if u.type ≠ UserType.Admin ∧ result.createdBy ≠ some u.id ∧ result.updatedBy ≠ some u.id then
      { result with createdBy := none, updatedBy := none }
    else
      result

/-- `rawCWUOpportunityHistoryRecordToCWUOpportunityHistoryRecord`: resolve the
author and classify the row as a status or an event, throwing when it is
neither. -/
def rawCWUOpportunityHistoryRecordToCWUOpportunityHistoryRecord (db : Db)
    (raw : CWUOpportunityStatusRecord) : Except String CWUOpportunityHistoryRecord :=
  match raw.status, raw.event with
  | none, none => .error "unable to process opportunity status record"
  | some s, _ =>
    .ok { id := raw.id, createdAt := raw.createdAt,
          createdBy := raw.createdBy.bind (readOneUserSlim db), note := raw.note,
          type := CWUHistoryType.status s }
  | none, some e =>
    .ok { id := raw.id, createdAt := raw.createdAt,
          createdBy := raw.createdBy.bind (readOneUserSlim db), note := raw.note,
          type := CWUHistoryType.event e }

/-- The owner/admin test guarding history and reporting: note that it runs
after `processForRole`, and that `===` on two `undefined` sides succeeds. -/
def ownerOrAdminCheck (session : Session) (r : RawCWUOpportunity) : Bool :=
  (match session with
   | some u => u.type == UserType.Admin
   | none => false) ||
  r.createdBy == session.map (fun u => u.id)

/-- The enrichment steps of `readOneCWUOpportunity` after the row is found:
role processing, attachment/addendum id queries, published date, awarded
flag, subscription flag, and (for owner/admin) history and reporting. -/
def enrichRawCWUOpportunity (db : Db) (oppId : Nat) (session : Session)
    (r0 : RawCWUOpportunity) : Except String RawCWUOpportunity :=
  let r1 := processForRole r0 session
  let attachmentIds := (db.cwuOpportunityAttachments.filter
    (fun a => a.opportunityVersion == r1.versionId)).map (fun a => a.file)
  let r2 := { r1 with attachments := attachmentIds }
  let addendaIds := (db.cwuOpportunityAddenda.filter
    (fun a => a.opportunity == oppId)).map (fun a => a.id)
  let r3 := { r2 with addenda := addendaIds }
  let publishedDate :=
    (sortBy (fun (a b : CWUOpportunityStatusRecord) => decide (a.createdAt ≤ b.createdAt))
      (db.cwuOpportunityStatuses.filter (fun s =>
        s.opportunity == r3.id && s.status == some CWUOpportunityStatus.Published))).head?
  let publishedAt := publishedDate.map (fun s => s.createdAt)
  let r4 := { r3 with publishedAt := publishedAt }
  let r5 :=
    if r4.status == some CWUOpportunityStatus.Awarded then
      { r4 with successfulProponent := some true }
    else r4
  let r6 :=
    match session with
    | some u =>
      let subscription := db.cwuOpportunitySubscribers.find? (fun s =>
        s.opportunity == r5.id && s.user == u.id)
      { r5 with subscribed := some subscription.isSome }
    | none => r5
  if ownerOrAdminCheck session r6 then do
    let rawStatusArray :=
      sortBy (fun (a b : CWUOpportunityStatusRecord) => decide (b.createdAt ≤ a.createdAt))
        (db.cwuOpportunityStatuses.filter (fun s => s.opportunity == r6.id))
    let hs ← mapMExcept (rawCWUOpportunityHistoryRecordToCWUOpportunityHistoryRecord db)
      rawStatusArray
    let r7 := { r6 with history := some hs }
    if statusIn r7.status publicOpportunityStatuses then
      let numViews := ((db.viewCounters.find? (fun c =>
        c.1 == getCWUOpportunityViewsCounterName r7.id)).map (fun c => c.2)).getD 0
      let numWatchers := (db.cwuOpportunitySubscribers.filter (fun s =>
        s.opportunity == r7.id)).length
      let numProposals := readSubmittedCWUProposalCount db r7.id
      pure { r7 with reporting := some ⟨numViews, numWatchers, numProposals⟩ }
    else
      pure r7
  else
    pure r6

/-- `rawCWUOpportunityAddendumToCWUOpportunityAddendum`. -/
def rawCWUOpportunityAddendumToCWUOpportunityAddendum (db : Db)
    (raw : CWUOpportunityAddendumRecord) : Addendum :=
  { id := raw.id, description := raw.description,
    createdBy := raw.createdBy.bind (readOneUserSlim db), createdAt := raw.createdAt }

/-- `readOneCWUOpportunityAddendum`: look an addendum row up by id and
resolve it; invalid when the row is missing. -/
def readOneCWUOpportunityAddendum (db : Db) (addId : Nat) : Except String Addendum :=
  match db.cwuOpportunityAddenda.find? (fun a => a.id == addId) with
  | none => .error "unable to read addendum"
  | some raw => .ok (rawCWUOpportunityAddendumToCWUOpportunityAddendum db raw)

/-- The per-attachment resolver inside `rawCWUOpportunityToCWUOpportunity`:
`readOneFileById` then throw when the file is missing. -/
def resolveAttachment (db : Db) (i : Nat) : Except String FileRecord :=
  match readOneFileById db i with
  | some f => Except.ok f
  | none => Except.error "unable to process opportunity"

/-- The per-addendum resolver inside `rawCWUOpportunityToCWUOpportunity`:
`readOneCWUOpportunityAddendum` then throw when it is invalid. -/
def resolveAddendum (db : Db) (i : Nat) : Except String Addendum :=
  match readOneCWUOpportunityAddendum db i with
  | Except.ok a => Except.ok a
  | Except.error _ => Except.error "unable to retrieve addenda"

/-- `rawCWUOpportunityToCWUOpportunity`: resolve authors, attachment files and
addenda, throwing (caught by `tryDb`) when a file or addendum is missing. -/
def rawCWUOpportunityToCWUOpportunity (db : Db) (raw : RawCWUOpportunity) :
    Except String CWUOpportunity := do
  let attachments ← mapMExcept (resolveAttachment db) raw.attachments
  let addenda ← mapMExcept (resolveAddendum db) raw.addenda
  pure { id := raw.id
         createdAt := raw.createdAt
         createdBy := raw.createdBy.bind (readOneUserSlim db)
         updatedAt := raw.updatedAt
         updatedBy := raw.updatedBy.bind (readOneUserSlim db)
         title := raw.title
         teaser := raw.teaser
         remoteOk := raw.remoteOk
         remoteDesc := raw.remoteDesc
         location := raw.location
         reward := raw.reward
         skills := raw.skills
         description := raw.description
         proposalDeadline := raw.proposalDeadline
         assignmentDate := raw.assignmentDate
         startDate := raw.startDate
         completionDate := raw.completionDate
         submissionInfo := raw.submissionInfo
         acceptanceCriteria := raw.acceptanceCriteria
         evaluationCriteria := raw.evaluationCriteria
         status := raw.status
         attachments := attachments
         addenda := addenda
         publishedAt := raw.publishedAt
         successfulProponent := raw.successfulProponent
         subscribed := raw.subscribed
         history := raw.history
         reporting := raw.reporting }

/-- `readOneCWUOpportunity`: join root, latest version and latest status-typed
status, apply role visibility, enrich, and resolve; `valid(null)` when no
visible row exists. -/
def readOneCWUOpportunity (db : Db) (oppId : Nat) (session : Session) :
    Except String (Option CWUOpportunity) :=
  match readOneCWUOpportunityRawResult db oppId session with
  | none => .ok none
  | some raw => do
    let enriched ← enrichRawCWUOpportunity db oppId session raw
    let o ← rawCWUOpportunityToCWUOpportunity db enriched
    pure (some o)

/-- `rawCWUOpportunitySlimToCWUOpportunitySlim`: resolve the author ids of a
slim row (a missing user resolves to `undefined`). -/
def rawCWUOpportunitySlimToCWUOpportunitySlim (db : Db) (raw : RawCWUOpportunitySlim) :
    CWUOpportunitySlim :=
  { id := raw.id
    createdAt := raw.createdAt
    createdBy := raw.createdBy.bind (readOneUserSlim db)
    updatedAt := raw.updatedAt
    updatedBy := raw.updatedBy.bind (readOneUserSlim db)
    title := raw.title
    proposalDeadline := raw.proposalDeadline
    status := raw.status }

/-- `readOneCWUOpportunitySlim`: read the full opportunity and reduce it; a
missing or invisible opportunity makes the internal read-back throw, so the
whole call is invalid rather than `valid(null)`. -/
def readOneCWUOpportunitySlim (db : Db) (oppId : Nat) (session : Session) :
    Except String (Option CWUOpportunitySlim) :=
  match readOneCWUOpportunity db oppId session with
  | .error _ => .error "unable to read opportunity"
  | .ok none => .error "unable to read opportunity"
  | .ok (some o) =>
    .ok (some { id := o.id, createdAt := o.createdAt, createdBy := o.createdBy,
                updatedAt := o.updatedAt, updatedBy := o.updatedBy, title := o.title,
                proposalDeadline := o.proposalDeadline, status := o.status })

/-- The select list of `readManyCWUOpportunities`. -/
def mkRawCWUOpportunitySlim (opp : RootOpportunityRecord) (stat : CWUOpportunityStatusRecord)
    (version : OpportunityVersionRecord) : RawCWUOpportunitySlim :=
  { id := opp.id
    title := version.title
    createdBy := some opp.createdBy
    createdAt := opp.createdAt
    updatedAt := version.createdAt
    updatedBy := some version.createdBy
    proposalDeadline := version.proposalDeadline
    status := stat.status }

/-- The join of `readManyCWUOpportunities`: all root rows, joined on the
latest status row of ANY type (its correlated subquery has no
`status is not null` restriction) and on the latest version. -/
def readManyCWUOpportunitiesJoinRows (db : Db) : List RawCWUOpportunitySlim :=
  db.cwuOpportunities.flatMap (fun opp =>
    (db.cwuOpportunityStatuses.filter (fun stat =>
        stat.opportunity == opp.id &&
        some stat.createdAt == maxAnyStatusCreatedAt db opp.id)).flatMap (fun stat =>
      (db.cwuOpportunityVersions.filter (fun version =>
          version.opportunity == opp.id &&
          some version.createdAt == maxVersionCreatedAt db opp.id)).map (fun version =>
        mkRawCWUOpportunitySlim opp stat version)))

/-- The role-based visibility `where` clauses of `readManyCWUOpportunities`:
admins get no filter at all. -/
def visibleForSessionSlim (session : Session) (raw : RawCWUOpportunitySlim) : Bool :=
  match session with
  | none => statusIn raw.status publicOpportunityStatuses
  | some u =>
    match u.type with
    | UserType.Vendor => statusIn raw.status publicOpportunityStatuses
    | UserType.Government =>
      statusIn raw.status publicOpportunityStatuses ||
        (statusIn raw.status privateOpportunitiesStatuses && raw.createdBy == some u.id)
    | UserType.Admin => true

/-- `readManyCWUOpportunities`: join, filter by role, strip author fields by
role and resolve the remaining ids. -/
def readManyCWUOpportunities (db : Db) (session : Session) :
    Except String (List CWUOpportunitySlim) :=
  .ok (((readManyCWUOpportunitiesJoinRows db).filter (visibleForSessionSlim session)).map
    (fun raw => rawCWUOpportunitySlimToCWUOpportunitySlim db (processForRoleSlim raw session)))

/-- The updatable content of an opportunity passed to
`updateCWUOpportunityVersion` (`id` is the opportunity id; attachments are
file ids). -/
structure UpdateCWUOpportunityParams where
  id : Nat
  title : String
  teaser : String
  remoteOk : Bool
  remoteDesc : String
  location : String
  reward : Nat
  skills : List String
  description : String
  proposalDeadline : Nat
  assignmentDate : Nat
  startDate : Nat
  completionDate : Nat
  submissionInfo : String
  acceptanceCriteria : String
  evaluationCriteria : String
  attachments : List Nat
deriving DecidableEq, Repr

/-- `createCWUOpportunityAttachments`: insert one attachment row per file for
the given version. -/
def createCWUOpportunityAttachments (db : Db) (oppVersionId : Nat)
    (attachments : List Nat) : Db :=
  { db with cwuOpportunityAttachments :=
      db.cwuOpportunityAttachments ++
        attachments.map (fun f => { opportunityVersion := oppVersionId, file := f }) }

/-- The version row inserted by `updateCWUOpportunityVersion`. -/
def mkVersionRow (p : UpdateCWUOpportunityParams) (u : User) (now vid : Nat) :
    OpportunityVersionRecord :=
  { id := vid
    opportunity := p.id
    createdAt := now
    createdBy := u.id
    title := p.title
    teaser := p.teaser
    remoteOk := p.remoteOk
    remoteDesc := p.remoteDesc
    location := p.location
    reward := p.reward
    skills := p.skills
    description := p.description
    proposalDeadline := p.proposalDeadline
    assignmentDate := p.assignmentDate
    startDate := p.startDate
    completionDate := p.completionDate
    submissionInfo := p.submissionInfo
    acceptanceCriteria := p.acceptanceCriteria
    evaluationCriteria := p.evaluationCriteria }

/-- The `Edited` change record appended by `updateCWUOpportunityVersion`. -/
def editedHistoryRow (oppId : Nat) (u : User) (now sid : Nat) : CWUOpportunityStatusRecord :=
  { id := sid, opportunity := oppId, createdAt := now, createdBy := some u.id,
    status := none, event := some CWUOpportunityEvent.Edited, note := "" }

/-- `updateCWUOpportunityVersion` (the committed run): insert a new version
row, its attachment rows, append an `Edited` change record, then read the
opportunity back.  `now` is the wall clock; `vid`/`sid` are the fresh uuids. -/
def updateCWUOpportunityVersion (db : Db) (p : UpdateCWUOpportunityParams) (u : User)
    (now vid sid : Nat) : Db × Except String CWUOpportunity :=
  let oppVersion := mkVersionRow p u now vid
  let db1 := { db with cwuOpportunityVersions := db.cwuOpportunityVersions ++ [oppVersion] }
  let db2 := createCWUOpportunityAttachments db1 vid p.attachments
  let db3 := { db2 with cwuOpportunityStatuses :=
    db2.cwuOpportunityStatuses ++ [editedHistoryRow p.id u now sid] }
  match readOneCWUOpportunity db3 oppVersion.opportunity (some u) with
  | .ok (some o) => (db3, .ok o)
  | _ => (db3, .error "unable to update opportunity")

/-- `updateCWUOpportunityVersion` when the wrapping transaction fails to
commit: the version insert and the attachment inserts went through the
transaction handle and are rolled back, but the `Edited` history insert was
issued on the base connection (it has no `.transacting(trx)`), so it alone
persists. -/
def updateCWUOpportunityVersionCommitFail (db : Db) (p : UpdateCWUOpportunityParams)
    (u : User) (now sid : Nat) : Db :=
  { db with cwuOpportunityStatuses :=
      db.cwuOpportunityStatuses ++ [editedHistoryRow p.id u now sid] }

/-- `updateCWUOpportunityStatus`: append one status row with the given status
and note, then read the opportunity back. -/
def updateCWUOpportunityStatus (db : Db) (oppId : Nat) (status : CWUOpportunityStatus)
    (note : String) (u : User) (now sid : Nat) : Db × Except String CWUOpportunity :=
  let row : CWUOpportunityStatusRecord :=
    { id := sid, opportunity := oppId, createdAt := now, createdBy := some u.id,
      status := some status, event := none, note := note }
  let db1 := { db with cwuOpportunityStatuses := db.cwuOpportunityStatuses ++ [row] }
  match readOneCWUOpportunity db1 oppId (some u) with
  | .ok (some o) => (db1, .ok o)
  | _ => (db1, .error "unable to update opportunity")

/-- `addCWUOpportunityAddendum`: insert one addendum row and append an
`AddendumAdded` change record (both inside one transaction), then read the
opportunity back. -/
def addCWUOpportunityAddendum (db : Db) (oppId : Nat) (addendumText : String) (u : User)
    (now aid sid : Nat) : Db × Except String CWUOpportunity :=
  let addendum : CWUOpportunityAddendumRecord :=
    { id := aid, opportunity := oppId, description := addendumText,
      createdBy := some u.id, createdAt := now }
  let db1 := { db with cwuOpportunityAddenda := db.cwuOpportunityAddenda ++ [addendum] }
  let row : CWUOpportunityStatusRecord :=
    { id := sid, opportunity := oppId, createdAt := now, createdBy := some u.id,
      status := none, event := some CWUOpportunityEvent.AddendumAdded, note := "" }
  let db2 := { db1 with cwuOpportunityStatuses := db1.cwuOpportunityStatuses ++ [row] }
  match readOneCWUOpportunity db2 oppId (some u) with
  | .ok (some o) => (db2, .ok o)
  | _ => (db2, .error "unable to add addendum")

/-- `deleteCWUOpportunity`: delete the root record; the database cascade
removes the opportunity's versions, statuses, addenda, attachments and
subscriptions. -/
def deleteCWUOpportunity (db : Db) (oppId : Nat) :
    Db × Except String RootOpportunityRecord :=
  match db.cwuOpportunities.find? (fun o => o.id == oppId) with
  | none => (db, .error "unable to delete opportunity")
  | some root =>
    let versionIds := (db.cwuOpportunityVersions.filter
      (fun v => v.opportunity == oppId)).map (fun v => v.id)
    let db1 : Db :=
      { db with
        cwuOpportunities := db.cwuOpportunities.filter (fun o => !(o.id == oppId))
        cwuOpportunityVersions :=
          db.cwuOpportunityVersions.filter (fun v => !(v.opportunity == oppId))
        cwuOpportunityStatuses :=
          db.cwuOpportunityStatuses.filter (fun s => !(s.opportunity == oppId))
        cwuOpportunityAddenda :=
          db.cwuOpportunityAddenda.filter (fun a => !(a.opportunity == oppId))
        cwuOpportunityAttachments :=
          db.cwuOpportunityAttachments.filter (fun a => !(versionIds.contains a.opportunityVersion))
        cwuOpportunitySubscribers :=
          db.cwuOpportunitySubscribers.filter (fun s => !(s.opportunity == oppId)) }
    (db1, .ok root)

/-- The lapsed-opportunities query of `closeCWUOpportunities`: ids of root
rows whose latest status-typed status row is `Published` and whose latest
version's proposal deadline is at or before `now`. -/
def lapsedCWUOpportunityIds (db : Db) (now : Nat) : List Nat :=
  db.cwuOpportunities.flatMap (fun opp =>
    (db.cwuOpportunityStatuses.filter (fun stat =>
        stat.opportunity == opp.id &&
        some stat.createdAt == maxTypedStatusCreatedAt db opp.id &&
        stat.status == some CWUOpportunityStatus.Published)).flatMap (fun _stat =>
      (db.cwuOpportunityVersions.filter (fun version =>
          version.opportunity == opp.id &&
          some version.createdAt == maxVersionCreatedAt db opp.id &&
          decide (version.proposalDeadline ≤ now))).map (fun _version => opp.id)))

/-- The submitted-proposals query of `closeCWUOpportunities`: ids of this
opportunity's proposals whose latest status-typed status row is `Submitted`. -/
def submittedCWUProposalIds (db : Db) (oppId : Nat) : List Nat :=
  (db.cwuProposals.filter (fun p => p.opportunity == oppId)).flatMap (fun p =>
    (db.cwuProposalStatuses.filter (fun stat =>
        stat.proposal == p.id && stat.status.isSome &&
        some stat.createdAt == maxTypedProposalStatusCreatedAt db p.id &&
        stat.status == some CWUProposalStatus.Submitted)).map (fun _stat => p.id))

/-- One iteration of `closeCWUOpportunities`' loop: append the `Evaluation`
status row for the lapsed opportunity, then append an `UnderReview` status
row for each of its submitted proposals (queried against the staged
database).  The `Nat` component threads the uuid supply. -/
def closeStep (now : Nat) : Db × Nat → Nat → Db × Nat :=
  fun acc lapsedOpportunityId =>
    let evalRow : CWUOpportunityStatusRecord :=
      { id := acc.2, opportunity := lapsedOpportunityId, createdAt := now, createdBy := none,
        status := some CWUOpportunityStatus.Evaluation, event := none,
        note := "This opportunity has closed." }
    let db1 := { acc.1 with cwuOpportunityStatuses := acc.1.cwuOpportunityStatuses ++ [evalRow] }
    let proposalIds := submittedCWUProposalIds db1 lapsedOpportunityId
    let newRows := proposalIds.enum.map (fun pr =>
      ({ id := acc.2 + 1 + pr.1, proposal := pr.2, createdAt := now, createdBy := none,
         status := some CWUProposalStatus.UnderReview, note := "" } : CWUProposalStatusRecord))
    let db2 := { db1 with cwuProposalStatuses := db1.cwuProposalStatuses ++ newRows }
    (db2, acc.2 + 1 + proposalIds.length)

/-- `closeCWUOpportunities`: find the lapsed opportunities, transition each
one and its submitted proposals (the whole sweep runs inside a single
transaction), and return how many opportunities lapsed.  `uuid0` seeds the
fresh uuid supply. -/
def closeCWUOpportunities (db : Db) (now uuid0 : Nat) : Db × Nat :=
  let lapsedIds := lapsedCWUOpportunityIds db now
  ((lapsedIds.foldl (closeStep now) (db, uuid0)).1, lapsedIds.length)

/-- `closeCWUOpportunities` when the run aborts after `k` lapsed
opportunities have been processed: every insert so far went through the one
wrapping transaction handle, so the rollback discards them all and the
database is unchanged. -/
def closeCWUOpportunitiesAborted (db : Db) (now uuid0 k : Nat) : Db :=
  let _ := (lapsedCWUOpportunityIds db now, uuid0, k)
  db

/-- Follows the claim's words, for comparison: were each opportunity's
transition its own transaction, aborting after `k` processed opportunities
would keep the first `k` transitions committed. -/
def closeCWUOpportunitiesPerOppAborted (db : Db) (now uuid0 k : Nat) : Db :=
  (((lapsedCWUOpportunityIds db now).take k).foldl (closeStep now) (db, uuid0)).1

/-- Claim-side characterization: `st` is the status-typed history row of
`oppId` with maximum `createdAt`. -/
abbrev IsLatestTypedStatus (db : Db) (oppId : Nat) (st : CWUOpportunityStatusRecord) : Prop :=
  st ∈ db.cwuOpportunityStatuses ∧ st.opportunity = oppId ∧ st.status.isSome = true ∧
    ∀ s' ∈ db.cwuOpportunityStatuses,
      s'.opportunity = oppId → s'.status.isSome = true → s'.createdAt ≤ st.createdAt

/-- Claim-side characterization: `v` is the version row of `oppId` with
maximum `createdAt`. -/
abbrev IsLatestVersion (db : Db) (oppId : Nat) (v : OpportunityVersionRecord) : Prop :=
  v ∈ db.cwuOpportunityVersions ∧ v.opportunity = oppId ∧
    ∀ v' ∈ db.cwuOpportunityVersions, v'.opportunity = oppId → v'.createdAt ≤ v.createdAt

/-- Claim-side characterization: `st` is the status-typed status row of
proposal `pid` with maximum `createdAt`. -/
abbrev IsLatestTypedProposalStatus (db : Db) (pid : Nat) (st : CWUProposalStatusRecord) : Prop :=
  st ∈ db.cwuProposalStatuses ∧ st.proposal = pid ∧ st.status.isSome = true ∧
    ∀ s' ∈ db.cwuProposalStatuses,
      s'.proposal = pid → s'.status.isSome = true → s'.createdAt ≤ st.createdAt

/-- Claim-side characterization of a lapsed opportunity: current status
`Published` and latest version's deadline at or before `now`. -/
abbrev LapsedSpec (db : Db) (now : Nat) (o : RootOpportunityRecord) : Prop :=
  (∃ st ∈ db.cwuOpportunityStatuses,
    IsLatestTypedStatus db o.id st ∧ st.status = some CWUOpportunityStatus.Published) ∧
  (∃ v ∈ db.cwuOpportunityVersions,
    IsLatestVersion db o.id v ∧ v.proposalDeadline ≤ now)

/-- Claim-side characterization of a submitted proposal: its current status
is `Submitted`. -/
abbrev SubmittedSpec (db : Db) (p : CWUProposalRecord) : Prop :=
  ∃ st ∈ db.cwuProposalStatuses,
    IsLatestTypedProposalStatus db p.id st ∧ st.status = some CWUProposalStatus.Submitted

/-- Whether `processForRole` keeps the author fields, phrased on the root
creator `cb` and latest-version creator `ub`. -/
def roleKeep (session : Session) (cb ub : Nat) : Bool :=
  match session with
  | none => false
  | some u => u.type == UserType.Admin || cb == u.id || ub == u.id

/-- Whether `processForRole` keeps the author fields of a raw row. -/
def roleKeepRaw (session : Session) (r : RawCWUOpportunity) : Bool :=
  match session with
  | none => false
  | some u => u.type == UserType.Admin || r.createdBy == some u.id || r.updatedBy == some u.id

/-- Whether `processForRole` keeps the author fields of a raw slim row. -/
def roleKeepRawSlim (session : Session) (r : RawCWUOpportunitySlim) : Bool :=
  match session with
  | none => false
  | some u => u.type == UserType.Admin || r.createdBy == some u.id || r.updatedBy == some u.id

/-- Example version row used by the concrete witnesses. -/
def exVersion : OpportunityVersionRecord :=
  { id := 100, opportunity := 1, createdAt := 1, createdBy := 10,
    title := "t", teaser := "", remoteOk := false, remoteDesc := "", location := "",
    reward := 500, skills := [], description := "", proposalDeadline := 10,
    assignmentDate := 20, startDate := 30, completionDate := 40,
    submissionInfo := "", acceptanceCriteria := "", evaluationCriteria := "" }

/-- Example database: one opportunity (created by government user 10) with
one version and one `Published` status row. -/
def exDb : Db :=
  { cwuOpportunities := [{ id := 1, createdAt := 0, createdBy := 10 }]
    cwuOpportunityVersions := [exVersion]
    cwuOpportunityStatuses :=
      [{ id := 200, opportunity := 1, createdAt := 1, createdBy := some 10,
         status := some CWUOpportunityStatus.Published, event := none, note := "" }]
    cwuOpportunityAttachments := []
    cwuOpportunityAddenda := []
    cwuOpportunitySubscribers := []
    cwuProposals := []
    cwuProposalStatuses := []
    files := []
    users := [{ id := 10, name := "gov" }, { id := 20, name := "admin" },
              { id := 30, name := "vendor" }]
    viewCounters := [] }

/-- An example vendor session. -/
def exVendor : User := { id := 30, type := UserType.Vendor }

/-- The opportunity a vendor reads out of `exDb`. -/
def exOppVendor : CWUOpportunity :=
  { id := 1, createdAt := 0, createdBy := none, updatedAt := 1, updatedBy := none,
    title := "t", teaser := "", remoteOk := false, remoteDesc := "", location := "",
    reward := 500, skills := [], description := "", proposalDeadline := 10,
    assignmentDate := 20, startDate := 30, completionDate := 40,
    submissionInfo := "", acceptanceCriteria := "", evaluationCriteria := "",
    status := some CWUOpportunityStatus.Published, attachments := [], addenda := [],
    publishedAt := some 1, successfulProponent := none, subscribed := some false,
    history := none, reporting := none }

/-- The raw joined row a vendor's `readOneCWUOpportunity` finds in `exDb`. -/
def exRawVendor : RawCWUOpportunity :=
  { id := 1, createdAt := 0, createdBy := some 10, versionId := 100, updatedAt := 1,
    updatedBy := some 10, title := "t", teaser := "", remoteOk := false, remoteDesc := "",
    location := "", reward := 500, skills := [], description := "", proposalDeadline := 10,
    assignmentDate := 20, startDate := 30, completionDate := 40, submissionInfo := "",
    acceptanceCriteria := "", evaluationCriteria := "",
    status := some CWUOpportunityStatus.Published }

/-- Example database for the listing bug: `exDb` after an edit appended an
`Edited` event row, which is now the most recent history row. -/
def exDbC3 : Db :=
  { exDb with cwuOpportunityStatuses := exDb.cwuOpportunityStatuses ++
      [{ id := 201, opportunity := 1, createdAt := 2, createdBy := some 10,
         status := none, event := some CWUOpportunityEvent.Edited, note := "" }] }

/-- Example database with an attachment pointing at a missing file. -/
def exDbC7 : Db :=
  { exDb with cwuOpportunityAttachments := [{ opportunityVersion := 100, file := 999 }] }

/-- Version row for the lifecycle-closer examples (deadline 3). -/
def mkC6Version (vid oid : Nat) : OpportunityVersionRecord :=
  { exVersion with id := vid, opportunity := oid, proposalDeadline := 3 }

/-- Example database for the lifecycle closer: two published opportunities
past their deadline, each with one submitted proposal. -/
def exDbC6 : Db :=
  { cwuOpportunities := [{ id := 1, createdAt := 0, createdBy := 10 },
                         { id := 2, createdAt := 0, createdBy := 10 }]
    cwuOpportunityVersions := [mkC6Version 100 1, mkC6Version 101 2]
    cwuOpportunityStatuses :=
      [{ id := 200, opportunity := 1, createdAt := 1, createdBy := some 10,
         status := some CWUOpportunityStatus.Published, event := none, note := "" },
       { id := 201, opportunity := 2, createdAt := 1, createdBy := some 10,
         status := some CWUOpportunityStatus.Published, event := none, note := "" }]
    cwuOpportunityAttachments := []
    cwuOpportunityAddenda := []
    cwuOpportunitySubscribers := []
    cwuProposals := [{ id := 300, opportunity := 1 }, { id := 301, opportunity := 2 }]
    cwuProposalStatuses :=
      [{ id := 400, proposal := 300, createdAt := 1, createdBy := some 31,
         status := some CWUProposalStatus.Submitted, note := "" },
       { id := 401, proposal := 301, createdAt := 1, createdBy := some 32,
         status := some CWUProposalStatus.Submitted, note := "" }]
    files := []
    users := []
    viewCounters := [] }

/-- An example government session user (the creator in `exDb`). -/
def exGov : User := { id := 10, type := UserType.Government }

/-- An example admin session user. -/
def exAdmin : User := { id := 20, type := UserType.Admin }

/-- Example update payload for opportunity 1. -/
def exUpdateParams : UpdateCWUOpportunityParams :=
  { id := 1, title := "t2", teaser := "", remoteOk := false, remoteDesc := "",
    location := "", reward := 600, skills := [], description := "",
    proposalDeadline := 10, assignmentDate := 20, startDate := 30, completionDate := 40,
    submissionInfo := "", acceptanceCriteria := "", evaluationCriteria := "",
    attachments := [] }

/-- Claim-side visibility: an opportunity is visible to a session when its
current (latest status-typed) status is public, or — for a government user —
private but created by that user; admins see everything. -/
def VisibleSpec (db : Db) (session : Session) (root : RootOpportunityRecord) : Prop :=
  match session with
  | none =>
    ∃ stat, IsLatestTypedStatus db root.id stat ∧
      ∃ s, stat.status = some s ∧ s ∈ publicOpportunityStatuses
  | some u =>
    match u.type with
    | UserType.Vendor =>
      ∃ stat, IsLatestTypedStatus db root.id stat ∧
        ∃ s, stat.status = some s ∧ s ∈ publicOpportunityStatuses
    | UserType.Government =>
      ∃ stat, IsLatestTypedStatus db root.id stat ∧
        ∃ s, stat.status = some s ∧
          (s ∈ publicOpportunityStatuses ∨
            (s ∈ privateOpportunitiesStatuses ∧ root.createdBy = u.id))
    | UserType.Admin => True


theorem mem_of_head? {α : Type} {l : List α} {a : α} (h : l.head? = some a) : a ∈ l := by
  cases l <;> simp_all

theorem listMaxNat_eq_none {l : List Nat} : listMaxNat l = none ↔ l = [] := by
  cases l with
  | nil => simp [listMaxNat]
  | cons a t =>
    simp only [listMaxNat]
    cases listMaxNat t <;> simp

theorem listMaxNat_mem {l : List Nat} {a : Nat} (h : listMaxNat l = some a) : a ∈ l := by
  induction l with
  | nil => simp [listMaxNat] at h
  | cons b t ih =>
    unfold listMaxNat at h
    cases ht : listMaxNat t with
    | none =>
      rw [ht] at h
      simp at h
      simp [h]
    | some c =>
      rw [ht] at h
      simp at h
      rcases max_choice b c with hm | hm
    
      · rw [hm] at h
        simp [h]
      · rw [hm] at h
        subst h
        exact List.mem_cons_of_mem _ (ih ht)

theorem listMaxNat_ge {l : List Nat} {a b : Nat} (h : listMaxNat l = some a) (hb : b ∈ l) :
    b ≤ a := by
  induction l generalizing a with
  | nil => simp at hb
  | cons c t ih =>
    unfold listMaxNat at h
    cases ht : listMaxNat t with
    | none =>
      rw [ht] at h
      rw [listMaxNat_eq_none.mp ht] at hb
      simp at h hb
      omega
    | some d =>
      rw [ht] at h
      simp at h
      rcases List.mem_cons.mp hb with hbc | hbt
      · subst hbc
        omega
      · have := ih ht hbt
        omega

theorem mapMExcept_error_of_mem {α β : Type} {f : α → Except String β} {l : List α} {x : α}
    {e0 : String} (hx : x ∈ l) (he : f x = .error e0) :
    ∃ e, mapMExcept f l = .error e := by
  induction l with
  | nil => simp at hx
  | cons a t ih =>
    unfold mapMExcept
    cases ha : f a with
    | error e => exact ⟨e, rfl⟩
    | ok b =>
      rcases List.mem_cons.mp hx with hxa | hxt
      · subst hxa
        rw [ha] at he
        cases he
      · rcases ih hxt with ⟨e, hmt⟩
        rw [hmt]
        exact ⟨e, rfl⟩

theorem processForRole_eq (r : RawCWUOpportunity) (s : Session) :
    processForRole r s =
      { r with createdBy := if roleKeepRaw s r then r.createdBy else none,
               updatedBy := if roleKeepRaw s r then r.updatedBy else none } := by
  cases s with
  | none => simp [processForRole, roleKeepRaw]
  | some u =>
    simp only [processForRole, roleKeepRaw]
    by_cases h : u.type ≠ UserType.Admin ∧ r.createdBy ≠ some u.id ∧ r.updatedBy ≠ some u.id
    · rw [if_pos h]
      have hb : (u.type == UserType.Admin || r.createdBy == some u.id ||
          r.updatedBy == some u.id) = false := by
        simp [beq_iff_eq]
        exact ⟨⟨h.1, h.2.1⟩, h.2.2⟩
      simp [hb]
    · rw [if_neg h]
      have hb : (u.type == UserType.Admin || r.createdBy == some u.id ||
          r.updatedBy == some u.id) = true := by
        by_contra hc
        simp [beq_iff_eq] at hc
        exact h ⟨hc.1.1, hc.1.2, hc.2⟩
      simp [hb]

theorem processForRoleSlim_eq (r : RawCWUOpportunitySlim) (s : Session) :
    processForRoleSlim r s =
      { r with createdBy := if roleKeepRawSlim s r then r.createdBy else none,
               updatedBy := if roleKeepRawSlim s r then r.updatedBy else none } := by
  cases s with
  | none => simp [processForRoleSlim, roleKeepRawSlim]
  | some u =>
    simp only [processForRoleSlim, roleKeepRawSlim]
    by_cases h : u.type ≠ UserType.Admin ∧ r.createdBy ≠ some u.id ∧ r.updatedBy ≠ some u.id
    · rw [if_pos h]
      have hb : (u.type == UserType.Admin || r.createdBy == some u.id ||
          r.updatedBy == some u.id) = false := by
        simp [beq_iff_eq]
        exact ⟨⟨h.1, h.2.1⟩, h.2.2⟩
      simp [hb]
    · rw [if_neg h]
      have hb : (u.type == UserType.Admin || r.createdBy == some u.id ||
          r.updatedBy == some u.id) = true := by
        by_contra hc
        simp [beq_iff_eq] at hc
        exact h ⟨hc.1.1, hc.1.2, hc.2⟩
      simp [hb]

theorem rawCWUOpportunityToCWUOpportunity_ok {db : Db} {r : RawCWUOpportunity}
    {o : CWUOpportunity} (h : rawCWUOpportunityToCWUOpportunity db r = .ok o) :
    o.id = r.id ∧ o.createdAt = r.createdAt ∧
    o.createdBy = r.createdBy.bind (readOneUserSlim db) ∧
    o.updatedAt = r.updatedAt ∧ o.updatedBy = r.updatedBy.bind (readOneUserSlim db) ∧
    o.title = r.title ∧ o.teaser = r.teaser ∧ o.remoteOk = r.remoteOk ∧
    o.remoteDesc = r.remoteDesc ∧ o.location = r.location ∧ o.reward = r.reward ∧
    o.skills = r.skills ∧ o.description = r.description ∧
    o.proposalDeadline = r.proposalDeadline ∧ o.assignmentDate = r.assignmentDate ∧
    o.startDate = r.startDate ∧ o.completionDate = r.completionDate ∧
    o.submissionInfo = r.submissionInfo ∧ o.acceptanceCriteria = r.acceptanceCriteria ∧
    o.evaluationCriteria = r.evaluationCriteria ∧ o.status = r.status := by
  unfold rawCWUOpportunityToCWUOpportunity at h
  cases ha : mapMExcept (resolveAttachment db) r.attachments with
  | error e => rw [ha] at h; simp [Bind.bind, Except.bind] at h
  | ok atts =>
    rw [ha] at h
    cases hd : mapMExcept (resolveAddendum db) r.addenda with
    | error e => rw [hd] at h; simp [Bind.bind, Except.bind] at h
    | ok adds =>
      rw [hd] at h
      simp [Bind.bind, Except.bind, Pure.pure, Except.pure] at h
      subst h
      exact ⟨rfl, rfl, rfl, rfl, rfl, rfl, rfl, rfl, rfl, rfl, rfl, rfl, rfl, rfl, rfl,
             rfl, rfl, rfl, rfl, rfl, rfl⟩

theorem except_bind_ok {α β : Type} {m : Except String α} {g : α → Except String β} {b : β}
    (h : m >>= g = .ok b) : ∃ a, m = .ok a ∧ g a = .ok b := by
  cases m with
  | error e => simp [Bind.bind, Except.bind] at h
  | ok a => exact ⟨a, rfl, by simpa [Bind.bind, Except.bind] using h⟩

set_option maxHeartbeats 2000000 in
theorem enrichRawCWUOpportunity_ok {db : Db} {oppId : Nat} {s : Session}
    {r : RawCWUOpportunity} {e : RawCWUOpportunity}
    (h : enrichRawCWUOpportunity db oppId s r = .ok e) :
    e.id = r.id ∧ e.createdAt = r.createdAt ∧ e.versionId = r.versionId ∧
    e.updatedAt = r.updatedAt ∧
    e.createdBy = (if roleKeepRaw s r then r.createdBy else none) ∧
    e.updatedBy = (if roleKeepRaw s r then r.updatedBy else none) ∧
    e.title = r.title ∧ e.teaser = r.teaser ∧ e.remoteOk = r.remoteOk ∧
    e.remoteDesc = r.remoteDesc ∧ e.location = r.location ∧ e.reward = r.reward ∧
    e.skills = r.skills ∧ e.description = r.description ∧
    e.proposalDeadline = r.proposalDeadline ∧ e.assignmentDate = r.assignmentDate ∧
    e.startDate = r.startDate ∧ e.completionDate = r.completionDate ∧
    e.submissionInfo = r.submissionInfo ∧ e.acceptanceCriteria = r.acceptanceCriteria ∧
    e.evaluationCriteria = r.evaluationCriteria ∧ e.status = r.status ∧
    e.attachments = (db.cwuOpportunityAttachments.filter
      (fun a => a.opportunityVersion == r.versionId)).map (fun a => a.file) ∧
    e.addenda = (db.cwuOpportunityAddenda.filter
      (fun a => a.opportunity == oppId)).map (fun a => a.id) := by
  rw [enrichRawCWUOpportunity.eq_def, processForRole_eq] at h
  simp only [] at h
  split at h <;> split at h <;> split at h <;> split at h <;>
    first
      | (obtain ⟨hs, hm, h⟩ := except_bind_ok h
         split at h <;>
           (simp only [Pure.pure, Except.pure] at h
            cases h
            refine ⟨rfl, rfl, rfl, rfl, ?_, ?_, rfl, rfl, rfl, rfl, rfl, rfl, rfl, rfl,
                    rfl, rfl, rfl, rfl, rfl, rfl, rfl, rfl, rfl, rfl⟩ <;> simp [*]))
      | (simp only [Pure.pure, Except.pure] at h
         cases h
         refine ⟨rfl, rfl, rfl, rfl, ?_, ?_, rfl, rfl, rfl, rfl, rfl, rfl, rfl, rfl,
                 rfl, rfl, rfl, rfl, rfl, rfl, rfl, rfl, rfl, rfl⟩ <;> simp [*])

theorem listMaxNat_filter_ge {α : Type} {l : List α} {key : α → Nat} {p : α → Bool} {m : Nat}
    (hm : listMaxNat ((l.filter p).map key) = some m) {x : α} (hx : x ∈ l)
    (hpx : p x = true) : key x ≤ m :=
  listMaxNat_ge hm (List.mem_map.mpr ⟨x, List.mem_filter.mpr ⟨hx, hpx⟩, rfl⟩)

theorem listMaxNat_filter_eq {α : Type} {l : List α} {key : α → Nat} {p : α → Bool} {x : α}
    (hx : x ∈ l) (hpx : p x = true) (hub : ∀ y ∈ l, p y = true → key y ≤ key x) :
    listMaxNat ((l.filter p).map key) = some (key x) := by
  have hxm : key x ∈ (l.filter p).map key :=
    List.mem_map.mpr ⟨x, List.mem_filter.mpr ⟨hx, hpx⟩, rfl⟩
  cases hm : listMaxNat ((l.filter p).map key) with
  | none =>
    rw [listMaxNat_eq_none] at hm
    rw [hm] at hxm
    simp at hxm
  | some m =>
    have h1 : key x ≤ m := listMaxNat_ge hm hxm
    have h2 : m ≤ key x := by
      obtain ⟨y, hy, hky⟩ := List.mem_map.mp (listMaxNat_mem hm)
      obtain ⟨hyl, hpy⟩ := List.mem_filter.mp hy
      exact hky ▸ hub y hyl hpy
    have : m = key x := Nat.le_antisymm h2 h1
    rw [this]

theorem readOneCWUOpportunity_ok_some {db : Db} {oppId : Nat} {s : Session} {o : CWUOpportunity}
    (h : readOneCWUOpportunity db oppId s = .ok (some o)) :
    ∃ raw e, readOneCWUOpportunityRawResult db oppId s = some raw ∧
      enrichRawCWUOpportunity db oppId s raw = .ok e ∧
      rawCWUOpportunityToCWUOpportunity db e = .ok o := by
  unfold readOneCWUOpportunity at h
  cases hr : readOneCWUOpportunityRawResult db oppId s with
  | none => rw [hr] at h; simp at h
  | some raw =>
    rw [hr] at h
    obtain ⟨e, he, h⟩ := except_bind_ok h
    obtain ⟨o2, ho2, h⟩ := except_bind_ok h
    simp only [Pure.pure, Except.pure] at h
    cases h
    exact ⟨raw, e, rfl, he, ho2⟩

theorem rawResult_spec {db : Db} {oppId : Nat} {s : Session} {raw : RawCWUOpportunity}
    (h : readOneCWUOpportunityRawResult db oppId s = some raw) :
    raw ∈ readOneCWUOpportunityJoinRows db oppId ∧ visibleForSession s raw = true := by
  unfold readOneCWUOpportunityRawResult at h
  have hm := mem_of_head? h
  exact ⟨(List.mem_filter.mp hm).1, (List.mem_filter.mp hm).2⟩

theorem of_mem_readOneJoinRows {db : Db} {oppId : Nat} {raw : RawCWUOpportunity}
    (h : raw ∈ readOneCWUOpportunityJoinRows db oppId) :
    ∃ opp stat version,
      opp ∈ db.cwuOpportunities ∧ opp.id = oppId ∧
      stat ∈ db.cwuOpportunityStatuses ∧ stat.opportunity = opp.id ∧
      some stat.createdAt = maxTypedStatusCreatedAt db opp.id ∧
      version ∈ db.cwuOpportunityVersions ∧ version.opportunity = opp.id ∧
      some version.createdAt = maxVersionCreatedAt db opp.id ∧
      raw = mkRawCWUOpportunity opp stat version := by
  simp only [readOneCWUOpportunityJoinRows, List.mem_flatMap, List.mem_filter, List.mem_map,
    Bool.and_eq_true, beq_iff_eq] at h
  obtain ⟨opp, ⟨hoppm, hoppid⟩, stat, ⟨hstatm, hstato, hstatc⟩, version, ⟨hvm, hvo, hvc⟩, hraw⟩ := h
  exact ⟨opp, stat, version, hoppm, hoppid, hstatm, hstato, hstatc, hvm, hvo, hvc, hraw.symm⟩

theorem visibleForSession_isSome {s : Session} {raw : RawCWUOpportunity}
    (h : visibleForSession s raw = true) : raw.status.isSome = true := by
  cases hst : raw.status with
  | some v => rfl
  | none =>
    cases s with
    | none => simp [visibleForSession, statusIn, hst] at h
    | some u => cases hu : u.type <;> simp [visibleForSession, statusIn, hst, hu] at h

theorem roleKeepRaw_mkRaw (s : Session) (opp : RootOpportunityRecord)
    (stat : CWUOpportunityStatusRecord) (version : OpportunityVersionRecord) :
    roleKeepRaw s (mkRawCWUOpportunity opp stat version) =
      roleKeep s opp.createdBy version.createdBy := by
  cases s <;> simp [roleKeepRaw, roleKeep, mkRawCWUOpportunity, beq_iff_eq]

theorem isLatestTyped_of_joined {db : Db} {oppId : Nat} {stat : CWUOpportunityStatusRecord}
    (hmem : stat ∈ db.cwuOpportunityStatuses) (hopp : stat.opportunity = oppId)
    (hmax : some stat.createdAt = maxTypedStatusCreatedAt db oppId)
    (hsome : stat.status.isSome = true) : IsLatestTypedStatus db oppId stat := by
  refine ⟨hmem, hopp, hsome, ?_⟩
  intro s' hs' hops' hsome'
  unfold maxTypedStatusCreatedAt at hmax
  exact listMaxNat_filter_ge hmax.symm hs' (by simp [hops', hsome'])

theorem isLatestVersion_of_joined {db : Db} {oppId : Nat} {version : OpportunityVersionRecord}
    (hmem : version ∈ db.cwuOpportunityVersions) (hopp : version.opportunity = oppId)
    (hmax : some version.createdAt = maxVersionCreatedAt db oppId) :
    IsLatestVersion db oppId version := by
  refine ⟨hmem, hopp, ?_⟩
  intro v' hv' hov'
  unfold maxVersionCreatedAt at hmax
  exact listMaxNat_filter_ge hmax.symm hv' (by simp [hov'])

/-- C1: for every opportunity id and session for which `readOneCWUOpportunity`
returns an opportunity, the returned record is the join of the root record
(id, createdAt, createdBy), the version row with maximum `createdAt` among
that opportunity's version rows (supplying title, teaser, dates, reward,
criteria, and updatedAt/updatedBy), and the status value of the status-typed
history row with maximum `createdAt` (author fields passing through the role
filter and user resolution). -/
theorem C1_readOne_joins_latest (db : Db) (oppId : Nat) (session : Session)
    (o : CWUOpportunity) (h : readOneCWUOpportunity db oppId session = .ok (some o)) :
    ∃ root ∈ db.cwuOpportunities, root.id = oppId ∧
      ∃ version, IsLatestVersion db oppId version ∧
        ∃ stat, IsLatestTypedStatus db oppId stat ∧
          o.id = root.id ∧ o.createdAt = root.createdAt ∧
          o.createdBy = (if roleKeep session root.createdBy version.createdBy then
            readOneUserSlim db root.createdBy else none) ∧
          o.updatedAt = version.createdAt ∧
          o.updatedBy = (if roleKeep session root.createdBy version.createdBy then
            readOneUserSlim db version.createdBy else none) ∧
          o.title = version.title ∧ o.teaser = version.teaser ∧
          o.remoteOk = version.remoteOk ∧ o.remoteDesc = version.remoteDesc ∧
          o.location = version.location ∧ o.reward = version.reward ∧
          o.skills = version.skills ∧ o.description = version.description ∧
          o.proposalDeadline = version.proposalDeadline ∧
          o.assignmentDate = version.assignmentDate ∧ o.startDate = version.startDate ∧
          o.completionDate = version.completionDate ∧
          o.submissionInfo = version.submissionInfo ∧
          o.acceptanceCriteria = version.acceptanceCriteria ∧
          o.evaluationCriteria = version.evaluationCriteria ∧
          o.status = stat.status := by
  obtain ⟨raw, e, hr, he, hc⟩ := readOneCWUOpportunity_ok_some h
  obtain ⟨hmemJ, hvis⟩ := rawResult_spec hr
  obtain ⟨opp, stat, version, hoppm, hoppid, hstatm, hstato, hstatc, hvm, hvo, hvc, hraw⟩ :=
    of_mem_readOneJoinRows hmemJ
  subst hraw
  subst hoppid
  obtain ⟨e1, e2, e3, e4, e5, e6, e7, e8, e9, e10, e11, e12, e13, e14, e15, e16, e17, e18,
    e19, e20, e21, e22, e23, e24⟩ := enrichRawCWUOpportunity_ok he
  obtain ⟨c1, c2, c3, c4, c5, c6, c7, c8, c9, c10, c11, c12, c13, c14, c15, c16, c17, c18,
    c19, c20, c21⟩ := rawCWUOpportunityToCWUOpportunity_ok hc
  have hsome : stat.status.isSome = true := by
    have := visibleForSession_isSome hvis
    simpa [mkRawCWUOpportunity] using this
  refine ⟨opp, hoppm, rfl, version, isLatestVersion_of_joined hvm hvo hvc, stat,
    isLatestTyped_of_joined hstatm hstato hstatc hsome, ?_, ?_, ?_, ?_, ?_, ?_, ?_, ?_,
    ?_, ?_, ?_, ?_, ?_, ?_, ?_, ?_, ?_, ?_, ?_, ?_, ?_⟩
  · rw [c1, e1]; rfl
  · rw [c2, e2]; rfl
  · rw [c3, e5, roleKeepRaw_mkRaw]
    cases roleKeep session opp.createdBy version.createdBy <;>
      simp [mkRawCWUOpportunity]
  · rw [c4, e4]; rfl
  · rw [c5, e6, roleKeepRaw_mkRaw]
    cases roleKeep session opp.createdBy version.createdBy <;>
      simp [mkRawCWUOpportunity]
  · rw [c6, e7]; rfl
  · rw [c7, e8]; rfl
  · rw [c8, e9]; rfl
  · rw [c9, e10]; rfl
  · rw [c10, e11]; rfl
  · rw [c11, e12]; rfl
  · rw [c12, e13]; rfl
  · rw [c13, e14]; rfl
  · rw [c14, e15]; rfl
  · rw [c15, e16]; rfl
  · rw [c16, e17]; rfl
  · rw [c17, e18]; rfl
  · rw [c18, e19]; rfl
  · rw [c19, e20]; rfl
  · rw [c20, e21]; rfl
  · rw [c21, e22]; rfl

/-- C1 witness: concrete instantiation on `exDb` with a vendor session. -/
theorem C1_witness :
    readOneCWUOpportunity exDb 1 (some exVendor) = .ok (some exOppVendor) ∧
    ∃ root ∈ exDb.cwuOpportunities, root.id = 1 ∧
      ∃ version, IsLatestVersion exDb 1 version ∧
        ∃ stat, IsLatestTypedStatus exDb 1 stat ∧ exOppVendor.status = stat.status := by
  refine ⟨rfl, ?_⟩
  obtain ⟨root, hr, hid, version, hv, stat, hst, _, _, _, _, _, _, _, _, _, _, _, _, _, _,
    _, _, _, _, _, hstat⟩ := C1_readOne_joins_latest exDb 1 (some exVendor) exOppVendor rfl
  exact ⟨root, hr, hid, version, hv, stat, hst, hstat.2⟩

theorem statusIn_true {st : Option CWUOpportunityStatus} {l : List CWUOpportunityStatus}
    (h : statusIn st l = true) : ∃ s, st = some s ∧ s ∈ l := by
  cases st with
  | none => simp [statusIn] at h
  | some s =>
    refine ⟨s, rfl, ?_⟩
    simpa [statusIn] using h

theorem of_mem_readManyJoinRows {db : Db} {raw : RawCWUOpportunitySlim}
    (h : raw ∈ readManyCWUOpportunitiesJoinRows db) :
    ∃ opp stat version,
      opp ∈ db.cwuOpportunities ∧
      stat ∈ db.cwuOpportunityStatuses ∧ stat.opportunity = opp.id ∧
      some stat.createdAt = maxAnyStatusCreatedAt db opp.id ∧
      version ∈ db.cwuOpportunityVersions ∧ version.opportunity = opp.id ∧
      some version.createdAt = maxVersionCreatedAt db opp.id ∧
      raw = mkRawCWUOpportunitySlim opp stat version := by
  simp only [readManyCWUOpportunitiesJoinRows, List.mem_flatMap, List.mem_map, List.mem_filter,
    Bool.and_eq_true, beq_iff_eq] at h
  obtain ⟨opp, hoppm, stat, ⟨hstatm, hstato, hstatc⟩, version, ⟨hvm, hvo, hvc⟩, hraw⟩ := h
  exact ⟨opp, stat, version, hoppm, hstatm, hstato, hstatc, hvm, hvo, hvc, hraw.symm⟩

theorem isLatestTyped_of_joinedAny {db : Db} {oppId : Nat} {stat : CWUOpportunityStatusRecord}
    (hmem : stat ∈ db.cwuOpportunityStatuses) (hopp : stat.opportunity = oppId)
    (hmax : some stat.createdAt = maxAnyStatusCreatedAt db oppId)
    (hsome : stat.status.isSome = true) : IsLatestTypedStatus db oppId stat := by
  refine ⟨hmem, hopp, hsome, ?_⟩
  intro s' hs' hops' _
  unfold maxAnyStatusCreatedAt at hmax
  exact listMaxNat_filter_ge hmax.symm hs' (by simp [hops'])

/-- C2: `readOneCWUOpportunity` and `readManyCWUOpportunities` return an
opportunity only if it is visible to the session: public-only for
anonymous/vendor requesters, own-private-plus-public for government users,
everything for admins. -/
theorem C2_role_based_visibility :
    (∀ (db : Db) (oppId : Nat) (session : Session) (o : CWUOpportunity),
      readOneCWUOpportunity db oppId session = .ok (some o) →
      ∃ root ∈ db.cwuOpportunities, root.id = oppId ∧ VisibleSpec db session root) ∧
    (∀ (db : Db) (session : Session) (os : List CWUOpportunitySlim),
      readManyCWUOpportunities db session = .ok os →
      ∀ o ∈ os, ∃ root ∈ db.cwuOpportunities, root.id = o.id ∧ VisibleSpec db session root) := by
  constructor
  · intro db oppId session o h
    obtain ⟨raw, e, hr, he, hc⟩ := readOneCWUOpportunity_ok_some h
    obtain ⟨hmemJ, hvis⟩ := rawResult_spec hr
    obtain ⟨opp, stat, version, hoppm, hoppid, hstatm, hstato, hstatc, hvm, hvo, hvc, hraw⟩ :=
      of_mem_readOneJoinRows hmemJ
    subst hraw
    subst hoppid
    refine ⟨opp, hoppm, rfl, ?_⟩
    cases session with
    | none =>
      obtain ⟨s, hs, hsl⟩ := statusIn_true (by simpa [visibleForSession] using hvis)
      have hst : stat.status = some s := by simpa [mkRawCWUOpportunity] using hs
      exact ⟨stat, isLatestTyped_of_joined hstatm hstato hstatc (by simp [hst]), s, hst, hsl⟩
    | some u =>
      cases hu : u.type with
      | Vendor =>
        obtain ⟨s, hs, hsl⟩ := statusIn_true (by simpa [visibleForSession, hu] using hvis)
        have hst : stat.status = some s := by simpa [mkRawCWUOpportunity] using hs
        simp only [VisibleSpec, hu]
        exact ⟨stat, isLatestTyped_of_joined hstatm hstato hstatc (by simp [hst]), s, hst, hsl⟩
      | Admin => simp [VisibleSpec, hu]
      | Government =>
        simp only [visibleForSession, hu, Bool.or_eq_true, Bool.and_eq_true] at hvis
        simp only [VisibleSpec, hu]
        rcases hvis with hpub | ⟨hpriv, hown⟩
        · obtain ⟨s, hs, hsl⟩ := statusIn_true hpub
          have hst : stat.status = some s := by simpa [mkRawCWUOpportunity] using hs
          exact ⟨stat, isLatestTyped_of_joined hstatm hstato hstatc (by simp [hst]), s, hst,
            Or.inl hsl⟩
        · obtain ⟨s, hs, hsl⟩ := statusIn_true hpriv
          have hst : stat.status = some s := by simpa [mkRawCWUOpportunity] using hs
          have hcb : opp.createdBy = u.id := by
            simpa [mkRawCWUOpportunity, beq_iff_eq] using hown
          exact ⟨stat, isLatestTyped_of_joined hstatm hstato hstatc (by simp [hst]), s, hst,
            Or.inr ⟨hsl, hcb⟩⟩
  · intro db session os h o ho
    have hos : os = ((readManyCWUOpportunitiesJoinRows db).filter
        (visibleForSessionSlim session)).map
        (fun raw => rawCWUOpportunitySlimToCWUOpportunitySlim db
          (processForRoleSlim raw session)) := by
      unfold readManyCWUOpportunities at h
      cases h
      rfl
    subst hos
    obtain ⟨raw, hrawf, hconv⟩ := List.mem_map.mp ho
    obtain ⟨hmemJ, hvis⟩ := List.mem_filter.mp hrawf
    obtain ⟨opp, stat, version, hoppm, hstatm, hstato, hstatc, hvm, hvo, hvc, hraw⟩ :=
      of_mem_readManyJoinRows hmemJ
    subst hraw
    have hoid : o.id = opp.id := by
      rw [← hconv]
      simp [rawCWUOpportunitySlimToCWUOpportunitySlim, processForRoleSlim_eq,
        mkRawCWUOpportunitySlim]
    refine ⟨opp, hoppm, hoid.symm, ?_⟩
    cases session with
    | none =>
      obtain ⟨s, hs, hsl⟩ := statusIn_true (by simpa [visibleForSessionSlim] using hvis)
      have hst : stat.status = some s := by simpa [mkRawCWUOpportunitySlim] using hs
      exact ⟨stat, isLatestTyped_of_joinedAny hstatm hstato hstatc (by simp [hst]), s, hst, hsl⟩
    | some u =>
      cases hu : u.type with
      | Vendor =>
        obtain ⟨s, hs, hsl⟩ := statusIn_true (by simpa [visibleForSessionSlim, hu] using hvis)
        have hst : stat.status = some s := by simpa [mkRawCWUOpportunitySlim] using hs
        simp only [VisibleSpec, hu]
        exact ⟨stat, isLatestTyped_of_joinedAny hstatm hstato hstatc (by simp [hst]), s, hst, hsl⟩
      | Admin => simp [VisibleSpec, hu]
      | Government =>
        simp only [visibleForSessionSlim, hu, Bool.or_eq_true, Bool.and_eq_true] at hvis
        simp only [VisibleSpec, hu]
        rcases hvis with hpub | ⟨hpriv, hown⟩
        · obtain ⟨s, hs, hsl⟩ := statusIn_true hpub
          have hst : stat.status = some s := by simpa [mkRawCWUOpportunitySlim] using hs
          exact ⟨stat, isLatestTyped_of_joinedAny hstatm hstato hstatc (by simp [hst]), s, hst,
            Or.inl hsl⟩
        · obtain ⟨s, hs, hsl⟩ := statusIn_true hpriv
          have hst : stat.status = some s := by simpa [mkRawCWUOpportunitySlim] using hs
          have hcb : opp.createdBy = u.id := by
            simpa [mkRawCWUOpportunitySlim, beq_iff_eq] using hown
          exact ⟨stat, isLatestTyped_of_joinedAny hstatm hstato hstatc (by simp [hst]), s, hst,
            Or.inr ⟨hsl, hcb⟩⟩

/-- C2 witness: concrete instantiation on `exDb` with a vendor session. -/
theorem C2_witness :
    readOneCWUOpportunity exDb 1 (some exVendor) = .ok (some exOppVendor) ∧
    ∃ root ∈ exDb.cwuOpportunities, root.id = 1 ∧ VisibleSpec exDb (some exVendor) root :=
  ⟨rfl, C2_role_based_visibility.1 exDb 1 (some exVendor) exOppVendor rfl⟩

/-- C4: every write appends rather than mutates: `updateCWUOpportunityVersion`
inserts one version row, its attachment rows and one `Edited` event row;
`updateCWUOpportunityStatus` appends one status row with the given status and
note; `addCWUOpportunityAddendum` inserts one addendum row and one
`AddendumAdded` event row; all pre-existing version, status and addendum rows
are left in place. -/
theorem C4_writes_append_only :
    (∀ (db : Db) (p : UpdateCWUOpportunityParams) (u : User) (now vid sid : Nat),
      (updateCWUOpportunityVersion db p u now vid sid).1.cwuOpportunityVersions =
        db.cwuOpportunityVersions ++ [mkVersionRow p u now vid] ∧
      (updateCWUOpportunityVersion db p u now vid sid).1.cwuOpportunityStatuses =
        db.cwuOpportunityStatuses ++ [editedHistoryRow p.id u now sid] ∧
      (updateCWUOpportunityVersion db p u now vid sid).1.cwuOpportunityAttachments =
        db.cwuOpportunityAttachments ++ p.attachments.map
          (fun f => { opportunityVersion := vid, file := f }) ∧
      (updateCWUOpportunityVersion db p u now vid sid).1.cwuOpportunityAddenda =
        db.cwuOpportunityAddenda ∧
      (editedHistoryRow p.id u now sid).event = some CWUOpportunityEvent.Edited ∧
      (editedHistoryRow p.id u now sid).status = none) ∧
    (∀ (db : Db) (oppId : Nat) (st : CWUOpportunityStatus) (note : String) (u : User)
        (now sid : Nat),
      (updateCWUOpportunityStatus db oppId st note u now sid).1.cwuOpportunityStatuses =
        db.cwuOpportunityStatuses ++
          [{ id := sid, opportunity := oppId, createdAt := now, createdBy := some u.id,
             status := some st, event := none, note := note }] ∧
      (updateCWUOpportunityStatus db oppId st note u now sid).1.cwuOpportunityVersions =
        db.cwuOpportunityVersions ∧
      (updateCWUOpportunityStatus db oppId st note u now sid).1.cwuOpportunityAddenda =
        db.cwuOpportunityAddenda) ∧
    (∀ (db : Db) (oppId : Nat) (text : String) (u : User) (now aid sid : Nat),
      (addCWUOpportunityAddendum db oppId text u now aid sid).1.cwuOpportunityAddenda =
        db.cwuOpportunityAddenda ++
          [{ id := aid, opportunity := oppId, description := text,
             createdBy := some u.id, createdAt := now }] ∧
      (addCWUOpportunityAddendum db oppId text u now aid sid).1.cwuOpportunityStatuses =
        db.cwuOpportunityStatuses ++
          [{ id := sid, opportunity := oppId, createdAt := now, createdBy := some u.id,
             status := none, event := some CWUOpportunityEvent.AddendumAdded, note := "" }] ∧
      (addCWUOpportunityAddendum db oppId text u now aid sid).1.cwuOpportunityVersions =
        db.cwuOpportunityVersions) := by
  refine ⟨?_, ?_, ?_⟩
  · intro db p u now vid sid
    unfold updateCWUOpportunityVersion createCWUOpportunityAttachments
    simp only []
    split <;> exact ⟨rfl, rfl, rfl, rfl, rfl, rfl⟩
  · intro db oppId st note u now sid
    unfold updateCWUOpportunityStatus
    simp only []
    split <;> exact ⟨rfl, rfl, rfl⟩
  · intro db oppId text u now aid sid
    unfold addCWUOpportunityAddendum
    simp only []
    split <;> exact ⟨rfl, rfl, rfl⟩

theorem closeStep_foldl_frame (now : Nat) (l : List Nat) (db : Db) (u0 : Nat) :
    (l.foldl (closeStep now) (db, u0)).1.cwuOpportunities = db.cwuOpportunities ∧
    (l.foldl (closeStep now) (db, u0)).1.cwuOpportunityVersions = db.cwuOpportunityVersions ∧
    (l.foldl (closeStep now) (db, u0)).1.cwuOpportunityAddenda = db.cwuOpportunityAddenda ∧
    (l.foldl (closeStep now) (db, u0)).1.cwuOpportunityAttachments =
      db.cwuOpportunityAttachments := by
  induction l generalizing db u0 with
  | nil => exact ⟨rfl, rfl, rfl, rfl⟩
  | cons i t ih =>
    rw [List.foldl_cons]
    exact ih _ _

/-- C5: the root opportunity record is never mutated: version updates, status
updates, addendum additions and the lifecycle closer leave the
`cwuOpportunities` table untouched, and only `deleteCWUOpportunity` removes
the row with the given id. -/
theorem C5_root_record_immutable :
    (∀ (db : Db) (p : UpdateCWUOpportunityParams) (u : User) (now vid sid : Nat),
      (updateCWUOpportunityVersion db p u now vid sid).1.cwuOpportunities =
        db.cwuOpportunities) ∧
    (∀ (db : Db) (oppId : Nat) (st : CWUOpportunityStatus) (note : String) (u : User)
        (now sid : Nat),
      (updateCWUOpportunityStatus db oppId st note u now sid).1.cwuOpportunities =
        db.cwuOpportunities) ∧
    (∀ (db : Db) (oppId : Nat) (text : String) (u : User) (now aid sid : Nat),
      (addCWUOpportunityAddendum db oppId text u now aid sid).1.cwuOpportunities =
        db.cwuOpportunities) ∧
    (∀ (db : Db) (now uuid0 : Nat),
      (closeCWUOpportunities db now uuid0).1.cwuOpportunities = db.cwuOpportunities) ∧
    (∀ (db : Db) (oppId : Nat),
      (deleteCWUOpportunity db oppId).1.cwuOpportunities =
        db.cwuOpportunities.filter (fun o => !(o.id == oppId))) := by
  refine ⟨?_, ?_, ?_, ?_, ?_⟩
  · intro db p u now vid sid
    unfold updateCWUOpportunityVersion createCWUOpportunityAttachments
    simp only []
    split <;> rfl
  · intro db oppId st note u now sid
    unfold updateCWUOpportunityStatus
    simp only []
    split <;> rfl
  · intro db oppId text u now aid sid
    unfold addCWUOpportunityAddendum
    simp only []
    split <;> rfl
  · intro db now uuid0
    exact (closeStep_foldl_frame now (lapsedCWUOpportunityIds db now) db uuid0).1
  · intro db oppId
    unfold deleteCWUOpportunity
    cases hf : db.cwuOpportunities.find? (fun o => o.id == oppId) with
    | none =>
      have : ∀ o ∈ db.cwuOpportunities, ¬(o.id == oppId) = true := by
        intro o ho
        exact List.find?_eq_none.mp hf o ho
      simp only []
      rw [List.filter_eq_self.mpr]
      intro o ho
      simp [this o ho]
    | some root => rfl

/-- C10: when an opportunity is missing or invisible, `readOneCWUOpportunity`
returns `valid(null)` while `readOneCWUOpportunitySlim` returns an invalid
result, and the slim read never returns `valid(null)`. -/
theorem C10_slim_read_invalid_not_null :
    (∀ (db : Db) (oppId : Nat) (session : Session),
      readOneCWUOpportunity db oppId session = .ok none →
      readOneCWUOpportunitySlim db oppId session = .error "unable to read opportunity") ∧
    (∀ (db : Db) (oppId : Nat) (session : Session),
      readOneCWUOpportunitySlim db oppId session ≠ .ok none) := by
  constructor
  · intro db i s h
    unfold readOneCWUOpportunitySlim
    rw [h]
  · intro db i s h
    unfold readOneCWUOpportunitySlim at h
    split at h <;> simp_all

/-- C10 witness: id 99 is absent from `exDb`. -/
theorem C10_witness :
    readOneCWUOpportunity exDb 99 none = .ok none ∧
    readOneCWUOpportunitySlim exDb 99 none = .error "unable to read opportunity" :=
  ⟨rfl, C10_slim_read_invalid_not_null.1 exDb 99 none rfl⟩

/-- C8 (code bug): if the transaction of `updateCWUOpportunityVersion` fails
to commit, the version and attachment inserts roll back but the `Edited`
history insert — issued without `.transacting(trx)` — persists, so the write
is not atomic. -/
theorem C8_commit_failure_leaks_edited_row :
    (updateCWUOpportunityVersionCommitFail exDb exUpdateParams exGov 5 500).cwuOpportunityVersions
      = exDb.cwuOpportunityVersions ∧
    (updateCWUOpportunityVersionCommitFail exDb exUpdateParams exGov 5 500).cwuOpportunityAttachments
      = exDb.cwuOpportunityAttachments ∧
    (updateCWUOpportunityVersionCommitFail exDb exUpdateParams exGov 5 500).cwuOpportunityStatuses
      = exDb.cwuOpportunityStatuses ++ [editedHistoryRow 1 exGov 5 500] ∧
    editedHistoryRow 1 exGov 5 500 ∉ exDb.cwuOpportunityStatuses ∧
    (editedHistoryRow 1 exGov 5 500).event = some CWUOpportunityEvent.Edited := by
  refine ⟨rfl, rfl, rfl, ?_, rfl⟩
  decide

/-- C3 (code bug): the current status of opportunity 1 in `exDbC3` is
`Published` (a public status) and `readOneCWUOpportunity` shows it, yet
`readManyCWUOpportunities` — whose latest-status subquery lacks the
`status is not null` restriction — joins the newer `Edited` event row
instead: the anonymous listing omits the opportunity entirely and the admin
listing shows it with a null status. -/
theorem C3_readMany_joins_latest_any_row :
    (∃ st ∈ exDbC3.cwuOpportunityStatuses,
      IsLatestTypedStatus exDbC3 1 st ∧ st.status = some CWUOpportunityStatus.Published) ∧
    CWUOpportunityStatus.Published ∈ publicOpportunityStatuses ∧
    readManyCWUOpportunities exDbC3 none = .ok [] ∧
    (readManyCWUOpportunities exDbC3 (some exAdmin)).map (List.map (fun o => o.status)) =
      .ok [none] ∧
    (readOneCWUOpportunity exDbC3 1 none).map (Option.map (fun o => o.status)) =
      .ok (some (some CWUOpportunityStatus.Published)) := by
  exact ⟨by decide, by decide, rfl, rfl, rfl⟩

/-- C7: if a visible opportunity row is found but one of its linked
attachment files or addenda cannot be resolved, the whole read is invalid
rather than a partial opportunity. -/
theorem C7_unresolvable_links_fail_read (db : Db) (oppId : Nat) (session : Session)
    (raw : RawCWUOpportunity)
    (h : readOneCWUOpportunityRawResult db oppId session = some raw)
    (hbad : (∃ a ∈ db.cwuOpportunityAttachments, a.opportunityVersion = raw.versionId ∧
              readOneFileById db a.file = none) ∨
            (∃ ad ∈ db.cwuOpportunityAddenda, ad.opportunity = oppId ∧
              ∀ b, readOneCWUOpportunityAddendum db ad.id ≠ .ok b)) :
    ∃ e, readOneCWUOpportunity db oppId session = .error e := by
  unfold readOneCWUOpportunity
  rw [h]
  cases he : enrichRawCWUOpportunity db oppId session raw with
  | error e => exact ⟨e, by simp [he, Bind.bind, Except.bind]⟩
  | ok enr =>
    obtain ⟨-, -, -, -, -, -, -, -, -, -, -, -, -, -, -, -, -, -, -, -, -, -, hatt, hadd⟩ :=
      enrichRawCWUOpportunity_ok he
    rcases hbad with ⟨a, ham, hav, haf⟩ | ⟨ad, hadm, hado, hadf⟩
    · have hmem : a.file ∈ enr.attachments := by
        rw [hatt]
        exact List.mem_map.mpr ⟨a, List.mem_filter.mpr ⟨ham, by simp [hav]⟩, rfl⟩
      have hfe : resolveAttachment db a.file = Except.error "unable to process opportunity" := by
        simp [resolveAttachment, haf]
      obtain ⟨e, hme⟩ := mapMExcept_error_of_mem hmem hfe
      have hconv : rawCWUOpportunityToCWUOpportunity db enr = Except.error e := by
        unfold rawCWUOpportunityToCWUOpportunity
        rw [hme]
        rfl
      exact ⟨e, by simp [he, hconv, Bind.bind, Except.bind]⟩
    · have hmem : ad.id ∈ enr.addenda := by
        rw [hadd]
        exact List.mem_map.mpr ⟨ad, List.mem_filter.mpr ⟨hadm, by simp [hado]⟩, rfl⟩
      have hfe : resolveAddendum db ad.id = Except.error "unable to retrieve addenda" := by
        unfold resolveAddendum
        cases hr : readOneCWUOpportunityAddendum db ad.id with
        | ok b => exact absurd hr (hadf b)
        | error e => rfl
      obtain ⟨e, hme⟩ := mapMExcept_error_of_mem hmem hfe
      cases hA : mapMExcept (resolveAttachment db) enr.attachments with
      | error e2 =>
        have hconv : rawCWUOpportunityToCWUOpportunity db enr = Except.error e2 := by
          unfold rawCWUOpportunityToCWUOpportunity
          rw [hA]
          rfl
        exact ⟨e2, by simp [he, hconv, Bind.bind, Except.bind]⟩
      | ok atts =>
        have hconv : rawCWUOpportunityToCWUOpportunity db enr = Except.error e := by
          unfold rawCWUOpportunityToCWUOpportunity
          rw [hA, hme]
          rfl
        exact ⟨e, by simp [he, hconv, Bind.bind, Except.bind]⟩

/-- C7 witness: `exDbC7` links version 100 to the missing file 999. -/
theorem C7_witness :
    readOneCWUOpportunityRawResult exDbC7 1 none = some exRawVendor ∧
    (∃ a ∈ exDbC7.cwuOpportunityAttachments, a.opportunityVersion = exRawVendor.versionId ∧
      readOneFileById exDbC7 a.file = none) ∧
    ∃ e, readOneCWUOpportunity exDbC7 1 none = .error e :=
  ⟨rfl, by decide,
    C7_unresolvable_links_fail_read exDbC7 1 none exRawVendor rfl (Or.inl (by decide))⟩

theorem roleKeepRaw_false {session : Session} {r : RawCWUOpportunity}
    (h : session = none ∨ ∀ u, session = some u → u.type ≠ UserType.Admin ∧
      r.createdBy ≠ some u.id ∧ r.updatedBy ≠ some u.id) :
    roleKeepRaw session r = false := by
  cases session with
  | none => rfl
  | some u =>
    rcases h with h | h
    · cases h
    · obtain ⟨h1, h2, h3⟩ := h u rfl
      simp [roleKeepRaw, beq_iff_eq, h1, h2, h3]

theorem roleKeepRawSlim_false {session : Session} {r : RawCWUOpportunitySlim}
    (h : session = none ∨ ∀ u, session = some u → u.type ≠ UserType.Admin ∧
      r.createdBy ≠ some u.id ∧ r.updatedBy ≠ some u.id) :
    roleKeepRawSlim session r = false := by
  cases session with
  | none => rfl
  | some u =>
    rcases h with h | h
    · cases h
    · obtain ⟨h1, h2, h3⟩ := h u rfl
      simp [roleKeepRawSlim, beq_iff_eq, h1, h2, h3]

/-- C9: for an unauthenticated session, or a user that is neither an admin
nor the recorded `createdBy`/`updatedBy`, `processForRole` removes the author
fields, and the records returned by `readOneCWUOpportunity` and
`readManyCWUOpportunities` therefore carry no `createdBy`/`updatedBy`. -/
theorem C9_author_fields_removed :
    (∀ (r : RawCWUOpportunity) (session : Session),
      (session = none ∨ ∀ u, session = some u → u.type ≠ UserType.Admin ∧
        r.createdBy ≠ some u.id ∧ r.updatedBy ≠ some u.id) →
      (processForRole r session).createdBy = none ∧
      (processForRole r session).updatedBy = none) ∧
    (∀ (db : Db) (oppId : Nat) (session : Session) (raw : RawCWUOpportunity)
        (o : CWUOpportunity),
      readOneCWUOpportunityRawResult db oppId session = some raw →
      (session = none ∨ ∀ u, session = some u → u.type ≠ UserType.Admin ∧
        raw.createdBy ≠ some u.id ∧ raw.updatedBy ≠ some u.id) →
      readOneCWUOpportunity db oppId session = .ok (some o) →
      o.createdBy = none ∧ o.updatedBy = none) ∧
    (∀ (db : Db) (session : Session) (os : List CWUOpportunitySlim),
      readManyCWUOpportunities db session = .ok os →
      (session = none ∨ ∀ u, session = some u → u.type ≠ UserType.Admin ∧
        ∀ r ∈ readManyCWUOpportunitiesJoinRows db,
          r.createdBy ≠ some u.id ∧ r.updatedBy ≠ some u.id) →
      ∀ o ∈ os, o.createdBy = none ∧ o.updatedBy = none) := by
  refine ⟨?_, ?_, ?_⟩
  · intro r session h
    rw [processForRole_eq, roleKeepRaw_false h]
    exact ⟨rfl, rfl⟩
  · intro db oppId session raw o hr h hok
    obtain ⟨raw2, e, hr2, he, hc⟩ := readOneCWUOpportunity_ok_some hok
    rw [hr] at hr2
    cases hr2
    obtain ⟨-, -, -, -, e5, e6, -⟩ := enrichRawCWUOpportunity_ok he
    obtain ⟨-, -, c3, -, c5, -⟩ := rawCWUOpportunityToCWUOpportunity_ok hc
    rw [roleKeepRaw_false h] at e5 e6
    simp at e5 e6
    rw [c3, c5, e5, e6]
    exact ⟨rfl, rfl⟩
  · intro db session os h hcond o ho
    have hos : os = ((readManyCWUOpportunitiesJoinRows db).filter
        (visibleForSessionSlim session)).map
        (fun raw => rawCWUOpportunitySlimToCWUOpportunitySlim db
          (processForRoleSlim raw session)) := by
      unfold readManyCWUOpportunities at h
      cases h
      rfl
    subst hos
    obtain ⟨raw, hrawf, hconv⟩ := List.mem_map.mp ho
    obtain ⟨hmemJ, -⟩ := List.mem_filter.mp hrawf
    have hk : roleKeepRawSlim session raw = false := by
      apply roleKeepRawSlim_false
      rcases hcond with h | h
      · exact Or.inl h
      · refine Or.inr (fun u hu => ?_)
        obtain ⟨h1, h2⟩ := h u hu
        exact ⟨h1, (h2 raw hmemJ).1, (h2 raw hmemJ).2⟩
    rw [← hconv]
    simp [rawCWUOpportunitySlimToCWUOpportunitySlim, processForRoleSlim_eq, hk]

/-- C9 witness: a vendor session on `exDb` (the vendor is neither admin nor
an author). -/
theorem C9_witness :
    readOneCWUOpportunityRawResult exDb 1 (some exVendor) = some exRawVendor ∧
    readOneCWUOpportunity exDb 1 (some exVendor) = .ok (some exOppVendor) ∧
    (exOppVendor.createdBy = none ∧ exOppVendor.updatedBy = none) :=
  ⟨rfl, rfl, C9_author_fields_removed.2.1 exDb 1 (some exVendor) exRawVendor exOppVendor rfl
    (Or.inr (fun u hu => by cases hu; exact ⟨by decide, by decide, by decide⟩)) rfl⟩

theorem pairwise_filter_le_one {α : Type} {l : List α} {R : α → α → Prop} {p : α → Bool}
    (h : l.Pairwise R) (hp : ∀ a b, p a = true → p b = true → R a b → False) :
    l.filter p = [] ∨ ∃ x, l.filter p = [x] := by
  induction l with
  | nil => exact Or.inl rfl
  | cons a t ih =>
    rcases List.pairwise_cons.mp h with ⟨ha, ht⟩
    by_cases hpa : p a = true
    · have htnil : t.filter p = [] := by
        rw [List.filter_eq_nil_iff]
        intro b hb hpb
        exact hp a b hpa hpb (ha b hb)
      right
      exact ⟨a, by rw [List.filter_cons_of_pos hpa, htnil]⟩
    · rw [List.filter_cons_of_neg (by simpa using hpa)]
      exact ih ht

theorem mem_singleton_cases {α : Type} {l : List α} {x : α}
    (h : l = [] ∨ ∃ y, l = [y]) (hx : x ∈ l) : l = [x] := by
  rcases h with h | ⟨y, h⟩
  · rw [h] at hx; simp at hx
  · rw [h] at hx
    simp at hx
    rw [h, hx]

theorem flatMap_eq_filter_map {α β : Type} {L : List α} {inner : α → List β} {p : α → Bool}
    {f : α → β} (h : ∀ o ∈ L, inner o = if p o then [f o] else []) :
    L.flatMap inner = (L.filter p).map f := by
  induction L with
  | nil => rfl
  | cons a t ih =>
    rw [List.flatMap_cons, h a (List.mem_cons_self a t),
      ih (fun o ho => h o (List.mem_cons_of_mem a ho))]
    by_cases hpa : p a = true
    · rw [if_pos hpa, List.filter_cons_of_pos hpa]
      rfl
    · rw [if_neg hpa, List.filter_cons_of_neg (by simpa using hpa)]
      rfl

theorem lapsed_stat_filter_mem_iff {db : Db} {oid : Nat} :
    (∃ st, st ∈ db.cwuOpportunityStatuses.filter (fun stat =>
      stat.opportunity == oid &&
      some stat.createdAt == maxTypedStatusCreatedAt db oid &&
      stat.status == some CWUOpportunityStatus.Published)) ↔
    (∃ st ∈ db.cwuOpportunityStatuses, IsLatestTypedStatus db oid st ∧
      st.status = some CWUOpportunityStatus.Published) := by
  constructor
  · rintro ⟨st, hst⟩
    obtain ⟨hm, hc⟩ := List.mem_filter.mp hst
    simp only [Bool.and_eq_true, beq_iff_eq] at hc
    obtain ⟨⟨ho, hmax⟩, hpub⟩ := hc
    exact ⟨st, hm, isLatestTyped_of_joined hm ho hmax (by simp [hpub]), hpub⟩
  · rintro ⟨st, hm, ⟨-, ho, hsome, hub⟩, hpub⟩
    refine ⟨st, List.mem_filter.mpr ⟨hm, ?_⟩⟩
    have hmax : maxTypedStatusCreatedAt db oid = some st.createdAt := by
      unfold maxTypedStatusCreatedAt
      exact listMaxNat_filter_eq hm (by simp [ho, hsome])
        (fun y hy hpy => by
          simp only [Bool.and_eq_true, beq_iff_eq] at hpy
          exact hub y hy hpy.1 hpy.2)
    simp [ho, hmax, hpub]

theorem lapsed_version_filter_mem_iff {db : Db} {now : Nat} {oid : Nat} :
    (∃ v, v ∈ db.cwuOpportunityVersions.filter (fun version =>
      version.opportunity == oid &&
      some version.createdAt == maxVersionCreatedAt db oid &&
      decide (version.proposalDeadline ≤ now))) ↔
    (∃ v ∈ db.cwuOpportunityVersions, IsLatestVersion db oid v ∧
      v.proposalDeadline ≤ now) := by
  constructor
  · rintro ⟨v, hv⟩
    obtain ⟨hm, hc⟩ := List.mem_filter.mp hv
    simp only [Bool.and_eq_true, beq_iff_eq, decide_eq_true_eq] at hc
    obtain ⟨⟨ho, hmax⟩, hdl⟩ := hc
    exact ⟨v, hm, isLatestVersion_of_joined hm ho hmax, hdl⟩
  · rintro ⟨v, hm, ⟨-, ho, hub⟩, hdl⟩
    refine ⟨v, List.mem_filter.mpr ⟨hm, ?_⟩⟩
    have hmax : maxVersionCreatedAt db oid = some v.createdAt := by
      unfold maxVersionCreatedAt
      exact listMaxNat_filter_eq hm (by simp [ho])
        (fun y hy hpy => by
          simp only [beq_iff_eq] at hpy
          exact hub y hy hpy)
    simp [ho, hmax, hdl]

theorem submitted_stat_filter_mem_iff {db : Db} {pid : Nat} :
    (∃ st, st ∈ db.cwuProposalStatuses.filter (fun stat =>
      stat.proposal == pid && stat.status.isSome &&
      some stat.createdAt == maxTypedProposalStatusCreatedAt db pid &&
      stat.status == some CWUProposalStatus.Submitted)) ↔
    (∃ st ∈ db.cwuProposalStatuses, IsLatestTypedProposalStatus db pid st ∧
      st.status = some CWUProposalStatus.Submitted) := by
  constructor
  · rintro ⟨st, hst⟩
    obtain ⟨hm, hc⟩ := List.mem_filter.mp hst
    simp only [Bool.and_eq_true, beq_iff_eq] at hc
    obtain ⟨⟨⟨hp, hsome⟩, hmax⟩, hsub⟩ := hc
    refine ⟨st, hm, ⟨hm, hp, hsome, ?_⟩, hsub⟩
    intro s' hs' hps' hsome'
    unfold maxTypedProposalStatusCreatedAt at hmax
    exact listMaxNat_filter_ge hmax.symm hs' (by simp [hps', hsome'])
  · rintro ⟨st, hm, ⟨-, hp, hsome, hub⟩, hsub⟩
    refine ⟨st, List.mem_filter.mpr ⟨hm, ?_⟩⟩
    have hmax : maxTypedProposalStatusCreatedAt db pid = some st.createdAt := by
      unfold maxTypedProposalStatusCreatedAt
      exact listMaxNat_filter_eq hm (by simp [hp, hsome])
        (fun y hy hpy => by
          simp only [Bool.and_eq_true, beq_iff_eq] at hpy
          exact hub y hy hpy.1 hpy.2)
    simp [hp, hsome, hmax, hsub]

theorem lapsedIds_eq (db : Db) (now : Nat)
    (hS : db.cwuOpportunityStatuses.Pairwise
      (fun s1 s2 => s1.opportunity = s2.opportunity → s1.createdAt ≠ s2.createdAt))
    (hV : db.cwuOpportunityVersions.Pairwise
      (fun v1 v2 => v1.opportunity = v2.opportunity → v1.createdAt ≠ v2.createdAt)) :
    lapsedCWUOpportunityIds db now =
      (db.cwuOpportunities.filter (fun o => decide (LapsedSpec db now o))).map
        (fun o => o.id) := by
  unfold lapsedCWUOpportunityIds
  apply flatMap_eq_filter_map
  intro opp _
  have hsf := pairwise_filter_le_one (p := fun stat =>
      stat.opportunity == opp.id &&
      some stat.createdAt == maxTypedStatusCreatedAt db opp.id &&
      stat.status == some CWUOpportunityStatus.Published) hS
    (by
      intro a b hpa hpb hR
      simp only [Bool.and_eq_true, beq_iff_eq] at hpa hpb
      exact hR (hpa.1.1.trans hpb.1.1.symm)
        (Option.some.inj (hpa.1.2.trans hpb.1.2.symm)))
  have hvf := pairwise_filter_le_one (p := fun version =>
      version.opportunity == opp.id &&
      some version.createdAt == maxVersionCreatedAt db opp.id &&
      decide (version.proposalDeadline ≤ now)) hV
    (by
      intro a b hpa hpb hR
      simp only [Bool.and_eq_true, beq_iff_eq] at hpa hpb
      exact hR (hpa.1.1.trans hpb.1.1.symm)
        (Option.some.inj (hpa.1.2.trans hpb.1.2.symm)))
  by_cases hspec : LapsedSpec db now opp
  · rw [if_pos (by simpa using hspec)]
    obtain ⟨hex1, hex2⟩ := hspec
    obtain ⟨st, hstf⟩ := lapsed_stat_filter_mem_iff.mpr hex1
    obtain ⟨v, hvfm⟩ := lapsed_version_filter_mem_iff.mpr hex2
    rw [mem_singleton_cases hsf hstf, mem_singleton_cases hvf hvfm]
    rfl
  · rw [if_neg (by simpa using hspec)]
    rcases hsf with hsf0 | ⟨s0, hsf1⟩
    · rw [hsf0]
      rfl
    · rcases hvf with hvf0 | ⟨v0, hvf1⟩
      · rw [hsf1, hvf0]
        rfl
      · exfalso
        apply hspec
        constructor
        · exact lapsed_stat_filter_mem_iff.mp ⟨s0, by rw [hsf1]; simp⟩
        · exact lapsed_version_filter_mem_iff.mp ⟨v0, by rw [hvf1]; simp⟩

theorem submittedIds_eq (db : Db) (oppId : Nat)
    (hPS : db.cwuProposalStatuses.Pairwise
      (fun s1 s2 => s1.proposal = s2.proposal → s1.createdAt ≠ s2.createdAt)) :
    submittedCWUProposalIds db oppId =
      ((db.cwuProposals.filter (fun p => p.opportunity == oppId)).filter
        (fun p => decide (SubmittedSpec db p))).map (fun p => p.id) := by
  unfold submittedCWUProposalIds
  apply flatMap_eq_filter_map
  intro p _
  have hsf := pairwise_filter_le_one (p := fun stat =>
      stat.proposal == p.id && stat.status.isSome &&
      some stat.createdAt == maxTypedProposalStatusCreatedAt db p.id &&
      stat.status == some CWUProposalStatus.Submitted) hPS
    (by
      intro a b hpa hpb hR
      simp only [Bool.and_eq_true, beq_iff_eq] at hpa hpb
      exact hR (hpa.1.1.1.trans hpb.1.1.1.symm)
        (Option.some.inj (hpa.1.2.trans hpb.1.2.symm)))
  by_cases hspec : SubmittedSpec db p
  · rw [if_pos (by simpa using hspec)]
    obtain ⟨st, hstf⟩ := submitted_stat_filter_mem_iff.mpr hspec
    rw [mem_singleton_cases hsf hstf]
    rfl
  · rw [if_neg (by simpa using hspec)]
    rcases hsf with hsf0 | ⟨s0, hsf1⟩
    · rw [hsf0]
      rfl
    · exfalso
      exact hspec (submitted_stat_filter_mem_iff.mp ⟨s0, by rw [hsf1]; simp⟩)

theorem submitted_append_invariant {dba db0 : Db} {Q : List CWUProposalStatusRecord}
    {oppId : Nat} (hprops : dba.cwuProposals = db0.cwuProposals)
    (hstats : dba.cwuProposalStatuses = db0.cwuProposalStatuses ++ Q)
    (hQ : ∀ r ∈ Q, ∀ p ∈ db0.cwuProposals, p.opportunity = oppId → p.id ≠ r.proposal) :
    submittedCWUProposalIds dba oppId = submittedCWUProposalIds db0 oppId := by
  unfold submittedCWUProposalIds
  rw [hprops]
  apply List.flatMap_congr
  intro p hp
  obtain ⟨hpm, hpo⟩ := List.mem_filter.mp hp
  have hpo' : p.opportunity = oppId := by simpa using hpo
  have hmax : maxTypedProposalStatusCreatedAt dba p.id =
      maxTypedProposalStatusCreatedAt db0 p.id := by
    unfold maxTypedProposalStatusCreatedAt
    rw [hstats, List.filter_append]
    have hq0 : Q.filter (fun s2 => s2.proposal == p.id && s2.status.isSome) = [] := by
      rw [List.filter_eq_nil_iff]
      intro r hr hc
      simp only [Bool.and_eq_true, beq_iff_eq] at hc
      exact absurd hc.1.symm (hQ r hr p hpm hpo')
    rw [hq0, List.append_nil]
  rw [hstats, List.filter_append, hmax]
  have hq1 : Q.filter (fun stat => stat.proposal == p.id && stat.status.isSome &&
      some stat.createdAt == maxTypedProposalStatusCreatedAt db0 p.id &&
      stat.status == some CWUProposalStatus.Submitted) = [] := by
    rw [List.filter_eq_nil_iff]
    intro r hr hc
    simp only [Bool.and_eq_true, beq_iff_eq] at hc
    exact absurd hc.1.1.1.symm (hQ r hr p hpm hpo')
  rw [hq1, List.append_nil]

theorem submitted_mem {db : Db} {oppId pid : Nat} (h : pid ∈ submittedCWUProposalIds db oppId) :
    ∃ p ∈ db.cwuProposals, p.id = pid ∧ p.opportunity = oppId := by
  unfold submittedCWUProposalIds at h
  simp only [List.mem_flatMap, List.mem_map, List.mem_filter, beq_iff_eq] at h
  obtain ⟨p, ⟨hpm, hpo⟩, st, hst, hpid⟩ := h
  exact ⟨p, hpm, hpid, hpo⟩

theorem closeStep_foldl_spec (now : Nat) (db0 : Db)
    (hPinj : ∀ p1 ∈ db0.cwuProposals, ∀ p2 ∈ db0.cwuProposals, p1.id = p2.id → p1 = p2) :
    ∀ (l : List Nat) (dbc : Db) (u0 : Nat) (Q : List CWUProposalStatusRecord),
    dbc.cwuProposals = db0.cwuProposals →
    dbc.cwuProposalStatuses = db0.cwuProposalStatuses ++ Q →
    (∀ r ∈ Q, ∀ p ∈ db0.cwuProposals, p.opportunity ∈ l → p.id ≠ r.proposal) →
    l.Nodup →
    ∃ E P,
      (l.foldl (closeStep now) (dbc, u0)).1.cwuOpportunityStatuses =
        dbc.cwuOpportunityStatuses ++ E ∧
      E.map (fun r => (r.opportunity, r.createdAt, r.status, r.note, r.createdBy)) =
        l.map (fun i => (i, now, some CWUOpportunityStatus.Evaluation,
          "This opportunity has closed.", (none : Option Nat))) ∧
      (l.foldl (closeStep now) (dbc, u0)).1.cwuProposalStatuses =
        dbc.cwuProposalStatuses ++ P ∧
      P.map (fun r => (r.proposal, r.createdAt, r.status, r.note)) =
        (l.flatMap (fun i => submittedCWUProposalIds db0 i)).map
          (fun pid => (pid, now, some CWUProposalStatus.UnderReview, "")) := by
  intro l
  induction l with
  | nil =>
    intro dbc u0 Q _ _ _ _
    exact ⟨[], [], by simp, rfl, by simp, rfl⟩
  | cons i t ih =>
    intro dbc u0 Q hprops hstats hQ hnd
    rw [List.foldl_cons]
    have hstep : closeStep now (dbc, u0) i =
        ({ dbc with
            cwuOpportunityStatuses := dbc.cwuOpportunityStatuses ++
              [{ id := u0, opportunity := i, createdAt := now, createdBy := none,
                 status := some CWUOpportunityStatus.Evaluation, event := none,
                 note := "This opportunity has closed." }],
            cwuProposalStatuses := dbc.cwuProposalStatuses ++
              (submittedCWUProposalIds db0 i).enum.map (fun pr =>
                ({ id := u0 + 1 + pr.1, proposal := pr.2, createdAt := now,
                   createdBy := none, status := some CWUProposalStatus.UnderReview,
                   note := "" } : CWUProposalStatusRecord)) },
          u0 + 1 + (submittedCWUProposalIds db0 i).length) := by
      have hsub : submittedCWUProposalIds
          { dbc with cwuOpportunityStatuses := dbc.cwuOpportunityStatuses ++
            [{ id := u0, opportunity := i, createdAt := now, createdBy := none,
               status := some CWUOpportunityStatus.Evaluation, event := none,
               note := "This opportunity has closed." }] } i =
          submittedCWUProposalIds db0 i := by
        apply submitted_append_invariant (Q := Q) hprops hstats
        intro r hr p hp hpo
        exact hQ r hr p hp (hpo ▸ List.mem_cons_self i t)
      unfold closeStep
      simp only [hsub]
    rw [hstep]
    set newRows := (submittedCWUProposalIds db0 i).enum.map (fun pr =>
      ({ id := u0 + 1 + pr.1, proposal := pr.2, createdAt := now,
         createdBy := none, status := some CWUProposalStatus.UnderReview,
         note := "" } : CWUProposalStatusRecord)) with hnewRows
    obtain ⟨E', P', hE1, hE2, hP1, hP2⟩ := ih
      ({ dbc with
          cwuOpportunityStatuses := dbc.cwuOpportunityStatuses ++
            [{ id := u0, opportunity := i, createdAt := now, createdBy := none,
               status := some CWUOpportunityStatus.Evaluation, event := none,
               note := "This opportunity has closed." }],
          cwuProposalStatuses := dbc.cwuProposalStatuses ++ newRows })
      (u0 + 1 + (submittedCWUProposalIds db0 i).length) (Q ++ newRows) hprops
      (by rw [hstats]; simp)
      (by
        intro r hr p hp hpot
        rcases List.mem_append.mp hr with hrQ | hrN
        · exact hQ r hrQ p hp (List.mem_cons_of_mem i hpot)
        · obtain ⟨pr, hprm, hpr⟩ := List.mem_map.mp hrN
          have hpr2 : pr.2 ∈ submittedCWUProposalIds db0 i := by
            have hmm : pr.2 ∈ (submittedCWUProposalIds db0 i).enum.map Prod.snd :=
              List.mem_map.mpr ⟨pr, hprm, rfl⟩
            rwa [List.enum_map_snd] at hmm
          obtain ⟨p2, hp2m, hp2id, hp2o⟩ := submitted_mem hpr2
          intro hpid
          have hrp : r.proposal = pr.2 := by rw [← hpr]
          have hpe : p = p2 := hPinj p hp p2 hp2m (by rw [hpid, hrp, hp2id])
          rw [hpe] at hpot
          rw [hp2o] at hpot
          exact (List.nodup_cons.mp hnd).1 hpot)
      (List.nodup_cons.mp hnd).2
    refine ⟨{ id := u0, opportunity := i, createdAt := now, createdBy := none,
              status := some CWUOpportunityStatus.Evaluation, event := none,
              note := "This opportunity has closed." } :: E', newRows ++ P', ?_, ?_, ?_, ?_⟩
    · rw [hE1]
      simp
    · simp only [List.map_cons, hE2, List.map_cons]
    · rw [hP1]
      simp
    · rw [List.map_append, hP2, List.flatMap_cons, List.map_append]
      congr 1
      rw [hnewRows, List.map_map]
      have : ((fun r : CWUProposalStatusRecord => (r.proposal, r.createdAt, r.status, r.note)) ∘
          (fun pr : Nat × Nat =>
            ({ id := u0 + 1 + pr.1, proposal := pr.2, createdAt := now, createdBy := none,
               status := some CWUProposalStatus.UnderReview,
               note := "" } : CWUProposalStatusRecord))) =
          (fun pr : Nat × Nat =>
            (pr.2, now, some CWUProposalStatus.UnderReview, "")) := rfl
      rw [this]
      have h2 : (fun pr : Nat × Nat => (pr.2, now, some CWUProposalStatus.UnderReview, "")) =
          ((fun pid : Nat => (pid, now, some CWUProposalStatus.UnderReview, "")) ∘
            Prod.snd) := rfl
      rw [h2, ← List.map_map, List.enum_map_snd]

theorem pairwise_key_eq {α : Type} {l : List α} {f : α → Nat}
    (h : l.Pairwise (fun a b => f a ≠ f b)) :
    ∀ a ∈ l, ∀ b ∈ l, f a = f b → a = b := by
  intro a ha b hb hfab
  by_contra hne
  exact List.Pairwise.forall (fun x y hxy => (hxy ∘ Eq.symm : f y ≠ f x)) h ha hb hne hfab

/-- C6 (amended): `closeCWUOpportunities` appends an `Evaluation` status row
to exactly the opportunities whose latest status-typed row is `Published` and
whose latest version's deadline has passed, appends an `UnderReview` status
row for each such opportunity's proposals whose latest status-typed row is
`Submitted`, leaves every other table unchanged, and returns the number of
opportunities transitioned — the whole sweep running in a single
transaction. -/
theorem C6_close_sweep (db : Db) (now uuid0 : Nat)
    (hO : db.cwuOpportunities.Pairwise (fun o1 o2 => o1.id ≠ o2.id))
    (hS : db.cwuOpportunityStatuses.Pairwise
      (fun s1 s2 => s1.opportunity = s2.opportunity → s1.createdAt ≠ s2.createdAt))
    (hV : db.cwuOpportunityVersions.Pairwise
      (fun v1 v2 => v1.opportunity = v2.opportunity → v1.createdAt ≠ v2.createdAt))
    (hP : db.cwuProposals.Pairwise (fun p1 p2 => p1.id ≠ p2.id))
    (hPS : db.cwuProposalStatuses.Pairwise
      (fun s1 s2 => s1.proposal = s2.proposal → s1.createdAt ≠ s2.createdAt)) :
    (closeCWUOpportunities db now uuid0).2 =
      (db.cwuOpportunities.filter (fun o => decide (LapsedSpec db now o))).length ∧
    (∃ E, (closeCWUOpportunities db now uuid0).1.cwuOpportunityStatuses =
      db.cwuOpportunityStatuses ++ E ∧
      E.map (fun r => (r.opportunity, r.createdAt, r.status, r.note, r.createdBy)) =
        ((db.cwuOpportunities.filter (fun o => decide (LapsedSpec db now o))).map
          (fun o => o.id)).map (fun i => (i, now,
            some CWUOpportunityStatus.Evaluation, "This opportunity has closed.",
            (none : Option Nat)))) ∧
    (∃ P, (closeCWUOpportunities db now uuid0).1.cwuProposalStatuses =
      db.cwuProposalStatuses ++ P ∧
      P.map (fun r => (r.proposal, r.createdAt, r.status, r.note)) =
        (((db.cwuOpportunities.filter (fun o => decide (LapsedSpec db now o))).map
          (fun o => o.id)).flatMap (fun i =>
            ((db.cwuProposals.filter (fun p => p.opportunity == i)).filter
              (fun p => decide (SubmittedSpec db p))).map (fun p => p.id))).map
          (fun pid => (pid, now, some CWUProposalStatus.UnderReview, ""))) ∧
    (closeCWUOpportunities db now uuid0).1.cwuOpportunities = db.cwuOpportunities ∧
    (closeCWUOpportunities db now uuid0).1.cwuOpportunityVersions =
      db.cwuOpportunityVersions ∧
    (closeCWUOpportunities db now uuid0).1.cwuOpportunityAddenda =
      db.cwuOpportunityAddenda := by
  have hleq := lapsedIds_eq db now hS hV
  have hnodup : (lapsedCWUOpportunityIds db now).Nodup := by
    rw [hleq]
    exact List.pairwise_map.mpr (List.Pairwise.filter _ hO)
  obtain ⟨E, P, h1, h2, h3, h4⟩ := closeStep_foldl_spec now db (pairwise_key_eq hP)
    (lapsedCWUOpportunityIds db now) db uuid0 [] rfl (by simp) (by simp) hnodup
  have hframe := closeStep_foldl_frame now (lapsedCWUOpportunityIds db now) db uuid0
  refine ⟨?_, ⟨E, ?_, ?_⟩, ⟨P, ?_, ?_⟩, hframe.1, hframe.2.1, hframe.2.2.1⟩
  · show (lapsedCWUOpportunityIds db now).length = _
    rw [hleq, List.length_map]
  · exact h1
  · rw [h2, hleq]
  · exact h3
  · rw [h4]
    have hcongr : (lapsedCWUOpportunityIds db now).flatMap
        (fun i => submittedCWUProposalIds db i) =
        (lapsedCWUOpportunityIds db now).flatMap (fun i =>
          ((db.cwuProposals.filter (fun p => p.opportunity == i)).filter
            (fun p => decide (SubmittedSpec db p))).map (fun p => p.id)) :=
      List.flatMap_congr (fun i _ => submittedIds_eq db i hPS)
    rw [hcongr, hleq]

/-- C6 witness: `exDbC6` has two published, lapsed opportunities with one
submitted proposal each. -/
theorem C6_witness :
    (exDbC6.cwuOpportunities.Pairwise (fun o1 o2 => o1.id ≠ o2.id) ∧
     exDbC6.cwuOpportunityStatuses.Pairwise
       (fun s1 s2 => s1.opportunity = s2.opportunity → s1.createdAt ≠ s2.createdAt) ∧
     exDbC6.cwuOpportunityVersions.Pairwise
       (fun v1 v2 => v1.opportunity = v2.opportunity → v1.createdAt ≠ v2.createdAt) ∧
     exDbC6.cwuProposals.Pairwise (fun p1 p2 => p1.id ≠ p2.id) ∧
     exDbC6.cwuProposalStatuses.Pairwise
       (fun s1 s2 => s1.proposal = s2.proposal → s1.createdAt ≠ s2.createdAt)) ∧
    (closeCWUOpportunities exDbC6 5 900).2 =
      (exDbC6.cwuOpportunities.filter (fun o => decide (LapsedSpec exDbC6 5 o))).length ∧
    (exDbC6.cwuOpportunities.filter (fun o => decide (LapsedSpec exDbC6 5 o))).length = 2 := by
  refine ⟨⟨by decide, by decide, by decide, by decide, by decide⟩, ?_, by decide⟩
  exact (C6_close_sweep exDbC6 5 900 (by decide) (by decide) (by decide) (by decide)
    (by decide)).1

/-- C6 counterexample to the claim as stated: the whole sweep runs in ONE
transaction, not one per opportunity.  If the run aborts after the first of
the two lapsed opportunities of `exDbC6` has been processed, the rollback
leaves the database unchanged — no `Evaluation` row for opportunity 1
persists — whereas with a transaction per opportunity the first transition
would have been committed. -/
theorem C6_counterexample_single_transaction :
    lapsedCWUOpportunityIds exDbC6 5 = [1, 2] ∧
    closeCWUOpportunitiesAborted exDbC6 5 900 1 = exDbC6 ∧
    (¬∃ r ∈ (closeCWUOpportunitiesAborted exDbC6 5 900 1).cwuOpportunityStatuses,
      r.status = some CWUOpportunityStatus.Evaluation) ∧
    (∃ r ∈ (closeCWUOpportunitiesPerOppAborted exDbC6 5 900 1).cwuOpportunityStatuses,
      r.opportunity = 1 ∧ r.status = some CWUOpportunityStatus.Evaluation) ∧
    closeCWUOpportunitiesAborted exDbC6 5 900 1 ≠
      closeCWUOpportunitiesPerOppAborted exDbC6 5 900 1 := by
  exact ⟨rfl, rfl, by decide, by decide, by decide⟩
